import Mathlib

/-!
Verification of the WasmEdge AOT function translator (src/lib/llvm/compiler.cpp).

The definitions below are a shallow embedding of the per-function
instruction translator: the emitted control-flow for the numeric trap
guards is modelled as a result-level function on machine-integer bit
patterns, the stack/control bookkeeping of `FunctionCompiler` is modelled
as explicit state passing, and the emitted atomic/gas/trap-epilogue code
is modelled as emission plans (records and instruction lists) translated
from the builder calls in the source.  Machine integers are `Nat` bit
patterns with explicit `% 2 ^ w`; floats are modelled exactly as
rationals extended with NaN and infinities, with LLVM's constant rounding
(round to nearest, ties to even) made explicit.
-/

set_option maxRecDepth 4096

/-- Error kinds routed to trap blocks by the translator
(the `ErrCode::Value` constants referenced in compiler.cpp). -/
inductive ErrCodeV where
  | unreachableTrap
  | divideByZero
  | integerOverflow
  | invalidConvToInt
  | unalignedAtomicAccess
  | costLimitExceeded
  | interrupted
  deriving DecidableEq, Repr

/-- Integer code passed to the trap helper for each error kind
(`static_cast<uint32_t>(Error)`; the enum's numeric values live in a
header outside the translated file, so the encoding is an arbitrary
fixed injection — no claim depends on the concrete numbers). -/
def errCodeNum : ErrCodeV → Nat
  | .unreachableTrap => 0
  | .divideByZero => 1
  | .integerOverflow => 2
  | .invalidConvToInt => 3
  | .unalignedAtomicAccess => 4
  | .costLimitExceeded => 5
  | .interrupted => 6

/-- Signed reinterpretation of a `w`-bit pattern (two's complement). -/
def bitsToSigned (w n : Nat) : Int :=
  if n < 2 ^ (w - 1) then (n : Int) else (n : Int) - 2 ^ w

/-- Bit pattern of a signed integer, reduced modulo `2 ^ w`. -/
def signedToBits (w : Nat) (x : Int) : Nat := (x % (2 ^ w : Int)).toNat

/-- Bit pattern of `INT_MIN` at width `w` (`IntMin` in the div/rem lowering). -/
def intMinBits (w : Nat) : Nat := 2 ^ (w - 1)

/-- Bit pattern of `-1` at width `w` (`IntMinusOne` in the div/rem lowering). -/
def minusOneBits (w : Nat) : Nat := 2 ^ w - 1

/-- Runtime outcome of an emitted numeric operation: either control is
transferred to the trap block of some error kind, or the value of the
push at the end of the emitted block sequence. -/
inductive EmitResult where
  | trap (e : ErrCodeV)
  | val (n : Nat)
  deriving DecidableEq, Repr

/-- Lowering of `i32.div_s` / `i64.div_s` (compiler.cpp `OpCode::I32__div_s`
case, with `kForceDivCheck = true`): branch to the divide-by-zero trap
when the right operand is zero; branch to the integer-overflow trap when
`LHS = IntMin` and `RHS = -1`; otherwise push the `sdiv`. -/
def compileDivS (w lhs rhs : Nat) : EmitResult :=
  if rhs ≠ 0 then
    if lhs ≠ intMinBits w ∨ rhs ≠ minusOneBits w then
      .val (signedToBits w (Int.tdiv (bitsToSigned w lhs) (bitsToSigned w rhs)))
    else .trap .integerOverflow
  else .trap .divideByZero

/-- Lowering of `i32.div_u` / `i64.div_u`: zero check, then `udiv`. -/
def compileDivU (w lhs rhs : Nat) : EmitResult :=
  if rhs ≠ 0 then .val (lhs / rhs) else .trap .divideByZero

/-- Lowering of `i32.rem_s` / `i64.rem_s` (compiler.cpp `OpCode::I32__rem_s`
case): zero check to the divide-by-zero trap; then a conditional branch on
`LHS ≠ IntMin ∨ RHS ≠ -1` into either the `srem` block or directly to the
end block, whose PHI yields `0` for the `IntMin % -1` case. -/
def compileRemS (w lhs rhs : Nat) : EmitResult :=
  if rhs ≠ 0 then
    if lhs ≠ intMinBits w ∨ rhs ≠ minusOneBits w then
      .val (signedToBits w (Int.tmod (bitsToSigned w lhs) (bitsToSigned w rhs)))
    else .val 0
  else .trap .divideByZero

/-- Lowering of `i32.rem_u` / `i64.rem_u`: zero check, then `urem`. -/
def compileRemU (w lhs rhs : Nat) : EmitResult :=
  if rhs ≠ 0 then .val (lhs % rhs) else .trap .divideByZero

/-- Lowering of `i32.shl` / `i64.shl` (compiler.cpp `OpCode::I32__shl`
case): the shift amount is masked with `w - 1` (31 or 63) before the
shift. -/
def compileShl (w lhs rhs : Nat) : Nat :=
  (lhs <<< (rhs &&& (w - 1))) % 2 ^ w

/-- Lowering of `i32.shr_u` / `i64.shr_u`: masked logical shift right. -/
def compileShrU (w lhs rhs : Nat) : Nat :=
  lhs >>> (rhs &&& (w - 1))

/-- Lowering of `i32.shr_s` / `i64.shr_s`: masked arithmetic shift right
(`ashr` is floor division of the signed reinterpretation by the power of
two). -/
def compileShrS (w lhs rhs : Nat) : Nat :=
  signedToBits w (Int.fdiv (bitsToSigned w lhs) (2 ^ (rhs &&& (w - 1))))

/-- Atomic memory orderings used by the emitted code. -/
inductive AtomicOrd where
  | monotonic
  | seqcst
  deriving DecidableEq, Repr

/-- Alignment test emitted by `compileAtomicCheckOffsetAlignment`: the
effective offset is masked with `(BitWidth >> 3) - 1` and compared with
zero. -/
def atomicAlignOk (bitWidth offset : Nat) : Bool :=
  offset &&& ((bitWidth >>> 3) - 1) == 0

/-- Emission plan of one atomic memory access: the checked effective
offset, the result of the alignment test, the trap kind taken on an
unaligned offset, the ordering of the access itself (none when the access
is performed inside a runtime intrinsic, as for notify/wait), and the IR
alignment attribute derived from the static alignment immediate. -/
structure AtomicAccessPlan where
  checkedOffset : Nat
  alignOk : Bool
  alignTrap : ErrCodeV
  ordering : Option AtomicOrd
  accessAlign : Option Nat
  deriving DecidableEq, Repr

/-- Plan of `compileAtomicLoad`: zero-extended address plus static offset
is alignment-checked against the access width; the load is
sequentially consistent with IR alignment `1 << Alignment`. -/
def compileAtomicLoadPlan (memOffset align bw addr : Nat) : AtomicAccessPlan :=
  { checkedOffset := addr + memOffset
    alignOk := atomicAlignOk bw (addr + memOffset)
    alignTrap := .unalignedAtomicAccess
    ordering := some .seqcst
    accessAlign := some (2 ^ align) }

/-- Plan of `compileAtomicStore`: same check; sequentially consistent store. -/
def compileAtomicStorePlan (memOffset align bw addr : Nat) : AtomicAccessPlan :=
  { checkedOffset := addr + memOffset
    alignOk := atomicAlignOk bw (addr + memOffset)
    alignTrap := .unalignedAtomicAccess
    ordering := some .seqcst
    accessAlign := some (2 ^ align) }

/-- Plan of `compileAtomicRMWOp`: same check; sequentially consistent RMW. -/
def compileAtomicRMWPlan (memOffset align bw addr : Nat) : AtomicAccessPlan :=
  { checkedOffset := addr + memOffset
    alignOk := atomicAlignOk bw (addr + memOffset)
    alignTrap := .unalignedAtomicAccess
    ordering := some .seqcst
    accessAlign := some (2 ^ align) }

/-- Plan of `compileAtomicCompareExchange`: same check; sequentially
consistent compare-exchange (both success and failure orderings). -/
def compileAtomicCmpXchgPlan (memOffset align bw addr : Nat) : AtomicAccessPlan :=
  { checkedOffset := addr + memOffset
    alignOk := atomicAlignOk bw (addr + memOffset)
    alignTrap := .unalignedAtomicAccess
    ordering := some .seqcst
    accessAlign := some (2 ^ align) }

/-- Plan of `compileAtomicNotify`: the check is always against the 32-bit
width (`Context.Int32Ty`); the operation itself is an intrinsic call, so
no IR ordering or alignment attribute is attached. -/
def compileAtomicNotifyPlan (memOffset addr : Nat) : AtomicAccessPlan :=
  { checkedOffset := addr + memOffset
    alignOk := atomicAlignOk 32 (addr + memOffset)
    alignTrap := .unalignedAtomicAccess
    ordering := none
    accessAlign := none }

/-- Plan of `compileAtomicWait`: checked against the target width; the wait
itself is an intrinsic call. -/
def compileAtomicWaitPlan (memOffset bw addr : Nat) : AtomicAccessPlan :=
  { checkedOffset := addr + memOffset
    alignOk := atomicAlignOk bw (addr + memOffset)
    alignTrap := .unalignedAtomicAccess
    ordering := none
    accessAlign := none }

/-- Outcome of one run of the emitted `updateGas` flush loop. -/
inductive GasOutcome where
  | trapCostLimit
  | flushed (shared localGas : Nat)
  | running (expected : Nat)
  deriving DecidableEq, Repr

/-- Structural facts of the `updateGas` emission: orderings of the initial
load and of the compare-exchange, the weak flag, and the trap kind of the
overrun branch (compiler.cpp lines 4075-4117). -/
structure UpdateGasPlan where
  loadOrdering : AtomicOrd
  casSuccessOrdering : AtomicOrd
  casFailureOrdering : AtomicOrd
  casWeak : Bool
  overrunTrap : ErrCodeV
  deriving DecidableEq, Repr

/-- Plan translated from `FunctionCompiler::updateGas`. -/
def updateGasPlan : UpdateGasPlan :=
  { loadOrdering := .monotonic
    casSuccessOrdering := .monotonic
    casFailureOrdering := .monotonic
    casWeak := true
    overrunTrap := .costLimitExceeded }

/-- Runtime behaviour of the `updateGas` CAS loop (`gas_check` /`gas_ok` /
`gas_end` blocks).  `old` is the value of the `PHIOldGas` node (initially
the monotonic load of the shared cell); each list element is one
compare-exchange attempt, giving the shared-cell value the CAS observed
and whether it failed spuriously (the CAS is weak).  Per iteration the
loop adds the flushed local accumulator (`cost`) with 64-bit wraparound,
branches to the cost-limit trap when the new total exceeds the limit
(unsigned), and otherwise attempts the CAS: on success the shared cell
holds the new total and the local accumulator is stored zero; on failure
the loop re-enters `gas_check` with the observed value. -/
def updateGasLoop (cost limit : Nat) : List (Nat × Bool) → Nat → GasOutcome
  | [], old => .running old
  | att :: rest, old =>
    if (old + cost) % 2 ^ 64 ≤ limit then
      if att.1 == old && !att.2 then .flushed ((old + cost) % 2 ^ 64) 0
      else updateGasLoop cost limit rest att.1
    else .trapCostLimit

/-- Function attributes placed on the shared trap helper
(`CompileContext` constructor, compiler.cpp lines 262-270). -/
inductive FnAttr where
  | noStackArgProbe
  | strictFP
  | uwTable
  | noReturnAttr
  | coldAttr
  | noInlineAttr
  deriving DecidableEq, Repr

/-- Attribute list added to `Trap.Fn` in the `CompileContext` constructor. -/
def trapFnAttrs : List FnAttr :=
  [.noStackArgProbe, .strictFP, .uwTable, .noReturnAttr, .coldAttr, .noInlineAttr]

/-- Instructions emitted into one trap block by the epilogue of
`FunctionCompiler::compile(CodeSegment)`. -/
inductive TrapEpIns where
  | atomicAddInstrCount (ordering : AtomicOrd)
  | atomicAddGas (ordering : AtomicOrd)
  | callTrap (code : Nat) (noReturnSite : Bool)
  | unreachableTerm
  deriving DecidableEq, Repr

/-- Emission of `updateInstrCount`: a plain (non-CAS) monotonic atomic add
of the local instruction counter into the shared cell, when counting is
enabled. -/
def updateInstrCountEmits (hasInstrCount : Bool) : List TrapEpIns :=
  if hasInstrCount then [.atomicAddInstrCount .monotonic] else []

/-- Emission of `updateGasAtTrap`: a plain (non-CAS) monotonic atomic add
of the local gas accumulator into the shared cell, when gas measuring is
enabled. -/
def updateGasAtTrapEmits (hasGas : Bool) : List TrapEpIns :=
  if hasGas then [.atomicAddGas .monotonic] else []

/-- Body emitted into the trap block of error kind `e`: flush the
instruction counter, flush the gas accumulator, call the trap helper with
the kind's integer code (the call site carries the no-return attribute),
and terminate with an unreachable instruction. -/
def trapBlockBody (hasInstrCount hasGas : Bool) (e : ErrCodeV) : List TrapEpIns :=
  updateInstrCountEmits hasInstrCount ++ updateGasAtTrapEmits hasGas ++
    [.callTrap (errCodeNum e) true, .unreachableTerm]

/-- Trap epilogue of `FunctionCompiler::compile(CodeSegment)`: for each
`(error, block)` pair of the trap-block cache, position at the block and
emit the trap body. -/
def trapEpilogue (hasInstrCount hasGas : Bool) (cache : List (ErrCodeV × Nat)) :
    List (Nat × List TrapEpIns) :=
  cache.map (fun p => (p.2, trapBlockBody hasInstrCount hasGas p.1))

/-- Lookup-or-create of `FunctionCompiler::getTrapBB`: reuse the cached
block for the error kind, otherwise insert a fresh block. -/
def getTrapBBModel (cache : List (ErrCodeV × Nat)) (fresh : Nat) (e : ErrCodeV) :
    List (ErrCodeV × Nat) × Nat :=
  match cache.find? (fun p => p.1 == e) with
  | some p => (cache, p.2)
  | none => (cache ++ [(e, fresh)], fresh)

/-- IEEE binary format descriptor (exponent and mantissa field widths);
`f32Fmt` and `f64Fmt` are the two scalar float types of the translator. -/
structure FpFmt where
  expBits : Nat
  mantBits : Nat
  deriving DecidableEq, Repr

def f32Fmt : FpFmt := ⟨8, 23⟩

def f64Fmt : FpFmt := ⟨11, 52⟩

/-- NaN test on a bit pattern: exponent field all ones and non-zero
mantissa field (IEEE-754 / LLVM float semantics). -/
def fpIsNan (fmt : FpFmt) (b : Nat) : Bool :=
  (((b >>> fmt.mantBits) &&& (2 ^ fmt.expBits - 1)) == 2 ^ fmt.expBits - 1)
    && ((b &&& (2 ^ fmt.mantBits - 1)) != 0)

/-- Zero test on a bit pattern (ignores the sign bit, so both +0 and -0). -/
def fpIsZero (fmt : FpFmt) (b : Nat) : Bool :=
  (b &&& (2 ^ (fmt.expBits + fmt.mantBits) - 1)) == 0

/-- Bit pattern of f32 negative zero. -/
def f32NegZero : Nat := 2 ^ 31

/-- LLVM `fcmp oeq` on bit patterns: ordered and equal; +0 equals -0,
every other value is equal only to its own bit pattern. -/
def fcmpOEQ (fmt : FpFmt) (a b : Nat) : Bool :=
  !fpIsNan fmt a && !fpIsNan fmt b
    && (a == b || (fpIsZero fmt a && fpIsZero fmt b))

/-- LLVM `fcmp uno` on bit patterns: either operand NaN. -/
def fcmpUNO (fmt : FpFmt) (a b : Nat) : Bool :=
  fpIsNan fmt a || fpIsNan fmt b

/-- LLVM `fcmp ueq` on bit patterns: unordered or equal. -/
def fcmpUEQ (fmt : FpFmt) (a b : Nat) : Bool :=
  fcmpUNO fmt a b || fcmpOEQ fmt a b

/-- Lowering of `f32.min` / `f64.min` (compiler.cpp `OpCode::F32__min`
case): select on `fcmp ueq`, then on `fcmp uno`; the equal case bitcasts
both operands to integers, ors them and bitcasts back; the unordered case
is the floating-point sum; the remaining case is the `minnum` intrinsic.
The float add and minnum intrinsics are parameters of the embedding (they
are LLVM instructions, not code of this repository). -/
def compileFMin (fmt : FpFmt) (fadd minnum : Nat → Nat → Nat) (lhs rhs : Nat) : Nat :=
  let ueq := fcmpUEQ fmt lhs rhs
  let uno := fcmpUNO fmt lhs rhs
  let orFp := lhs ||| rhs
  let addFp := fadd lhs rhs
  let minFp := minnum lhs rhs
  if ueq then (if uno then addFp else orFp) else minFp

/-- Lowering of `f32.max` / `f64.max`: as for min, with a bitwise and in
the equal case and the `maxnum` intrinsic in the ordered-unequal case. -/
def compileFMax (fmt : FpFmt) (fadd maxnum : Nat → Nat → Nat) (lhs rhs : Nat) : Nat :=
  let ueq := fcmpUEQ fmt lhs rhs
  let uno := fcmpUNO fmt lhs rhs
  let andFp := lhs &&& rhs
  let addFp := fadd lhs rhs
  let maxFp := maxnum lhs rhs
  if ueq then (if uno then addFp else andFp) else maxFp

/-- Symbolic IR value held on the translator's operand stack. -/
inductive IRVal where
  | undef
  | intConst (n : Nat)
  | insResult (id : Nat)
  deriving DecidableEq, Repr

/-- Abstracted IR emission events of the translator model. -/
inductive IREvent where
  | brEvent
  | addEvent
  | unreachableEvent
  deriving DecidableEq, Repr

/-- Control frame of `FunctionCompiler::Control`, restricted to the fields
used by the stack bookkeeping: the operand-stack height recorded at entry
(`StackSize`), the unreachable flag, and the block-type arities. -/
structure CtrlFrame where
  stackBase : Nat
  unreachableFlag : Bool
  paramAr : Nat
  resultAr : Nat
  deriving DecidableEq, Repr

/-- Translator state: operand stack (head is the top of stack), control
stack (head is the innermost frame), emitted IR events, and the
`IsUnreachable` member used when the control stack is empty. -/
structure TransState where
  stack : List IRVal
  ctrl : List CtrlFrame
  ir : List IREvent
  topUnreachable : Bool
  deriving DecidableEq, Repr

/-- Translation of `FunctionCompiler::isUnreachable`. -/
def TransState.isUnreachable (s : TransState) : Bool :=
  match s.ctrl with
  | [] => s.topUnreachable
  | f :: _ => f.unreachableFlag

/-- Translation of `FunctionCompiler::setUnreachable`. -/
def TransState.setUnreachable (s : TransState) : TransState :=
  match s.ctrl with
  | [] => { s with topUnreachable := true }
  | f :: rest => { s with ctrl := { f with unreachableFlag := true } :: rest }

/-- Instruction subset of the dispatch loop that the stack-model claims
range over: one block construct, its end, and representative non-control
instructions. -/
inductive WInstr where
  | blockOp (params results : Nat)
  | endOp
  | i32ConstOp (n : Nat)
  | i32AddOp
  | dropIns
  | unreachableOp
  deriving DecidableEq, Repr

/-- Non-control instructions are the ones translated after the
`isUnreachable` early-return check of the dispatch lambda (compiler.cpp
line 691); `Block`/`End` (as `Loop`/`If`/`Else`) are handled before it. -/
def isNonControlInstr : WInstr → Bool
  | .blockOp _ _ => false
  | .endOp => false
  | .i32ConstOp _ => true
  | .i32AddOp => true
  | .dropIns => true
  | .unreachableOp => true

/-- Dispatch step of `FunctionCompiler::compile(InstrView)` restricted to
the modelled subset.  `Block` first emits the branch into the new block;
with the current frame unreachable its entry arguments are undefined
values pushed WITHOUT popping the operands (source lines 590-600), and
otherwise the popped arguments are re-pushed unchanged by `enterBlock`.
`End` translates `leaveBlock`
(truncating the operand stack to the frame's recorded base) followed by
`buildPHI` (which with no incomings — the unreachable case — pushes
undefined values, and with the single fall-through incoming re-pushes the
popped results).  All other instructions return without any effect when
the current frame is unreachable. -/
def dispatchStep (i : WInstr) (s : TransState) : TransState :=
  match i with
  | .blockOp p r =>
    if s.isUnreachable then
      { s with
        stack := List.replicate p IRVal.undef ++ s.stack,
        ctrl := ⟨s.stack.length, true, p, r⟩ :: s.ctrl,
        ir := s.ir ++ [.brEvent] }
    else
      { s with
        ctrl := ⟨s.stack.length - p, false, p, r⟩ :: s.ctrl,
        ir := s.ir ++ [.brEvent] }
  | .endOp =>
    match s.ctrl with
    | [] => s
    | f :: rest =>
      if f.unreachableFlag then
        { s with
          stack := List.replicate f.resultAr IRVal.undef
            ++ s.stack.drop (s.stack.length - f.stackBase),
          ctrl := rest,
          ir := s.ir ++ [.unreachableEvent] }
      else
        { s with
          stack := s.stack.take f.resultAr
            ++ (s.stack.drop f.resultAr).drop
              ((s.stack.length - f.resultAr) - f.stackBase),
          ctrl := rest,
          ir := s.ir ++ [.brEvent] }
  | .i32ConstOp n =>
    if s.isUnreachable then s
    else { s with stack := IRVal.intConst n :: s.stack }
  | .i32AddOp =>
    if s.isUnreachable then s
    else
      { s with
        stack := IRVal.insResult s.ir.length :: s.stack.tail.tail,
        ir := s.ir ++ [.addEvent] }
  | .dropIns =>
    if s.isUnreachable then s
    else { s with stack := s.stack.tail }
  | .unreachableOp =>
    if s.isUnreachable then s
    else TransState.setUnreachable { s with ir := s.ir ++ [.brEvent] }

/-- Concrete state used by the C2 counterexample: one control frame marked
unreachable (as after translating `unreachable`), two i32 operands on the
stack. -/
def c2State : TransState :=
  { stack := [IRVal.intConst 1, IRVal.intConst 2]
    ctrl := [⟨0, true, 0, 0⟩]
    ir := []
    topUnreachable := false }

/-- Primitive stack/control operations of the translator
(`stackPush`, `stackPop`, `enterBlock`, `leaveBlock`). -/
inductive TransOp where
  | pushOp (v : IRVal)
  | popOp
  | enterOp (args : List IRVal) (results : Nat)
  | leaveOp
  deriving DecidableEq, Repr

/-- State effect of each primitive operation.  `stackPush` appends;
`stackPop` removes the top; `enterBlock` pushes the entry arguments and
records a frame whose stack-base is the pre-push height
(`Stack.size() - Args.size()` after the pushes); `leaveBlock` pops the
result values (when the frame is reachable), truncates the operand stack
to the frame's stack-base (`Stack.erase(begin + StackSize, end)`) and pops
the frame, emitting the fall-through branch or an unreachable
terminator. -/
def applyTransOp : TransOp → TransState → TransState
  | .pushOp v, s => { s with stack := v :: s.stack }
  | .popOp, s => { s with stack := s.stack.tail }
  | .enterOp args results, s =>
    { s with
      stack := args.reverse ++ s.stack,
      ctrl := ⟨s.stack.length, s.isUnreachable, args.length, results⟩ :: s.ctrl }
  | .leaveOp, s =>
    match s.ctrl with
    | [] => s
    | f :: rest =>
      let popped := if f.unreachableFlag then s.stack else s.stack.drop f.resultAr
      { s with
        stack := popped.drop (popped.length - f.stackBase),
        ctrl := rest,
        ir := s.ir ++ [if f.unreachableFlag then .unreachableEvent else .brEvent] }

/-- Precondition of each primitive operation, from the assertions in the
source and from the validated-input contract: `stackPop` asserts both
`!ControlStack.empty() || !Stack.empty()` and
`Stack.size() > ControlStack.back().StackSize` (together: the stack is
non-empty and strictly higher than the innermost stack-base);
`leaveBlock` is called with a non-empty control stack, and in the
reachable case its result pops need the stack to hold the frame's results
above the base. -/
def transOpPre : TransOp → TransState → Bool
  | .pushOp _, _ => true
  | .popOp, s =>
    (s.stack.length != 0) &&
      (match s.ctrl with
       | [] => true
       | f :: _ => f.stackBase < s.stack.length)
  | .enterOp _ _, _ => true
  | .leaveOp, s =>
    match s.ctrl with
    | [] => false
    | f :: _ => f.unreachableFlag || (f.stackBase + f.resultAr ≤ s.stack.length)

/-- Chained stack-base bound: the innermost frame's base is at most the
current height, and every frame's base is at most the base of the frame
inside it. -/
def basesOK : Nat → List CtrlFrame → Bool
  | _, [] => true
  | h, f :: rest => (f.stackBase ≤ h) && basesOK f.stackBase rest

/-- The stack invariant of C9: the operand-stack height is bounded below
by the innermost frame's recorded stack-base, chained down the control
stack. -/
def stackInv (s : TransState) : Bool := basesOK s.stack.length s.ctrl

/-- Function type of a type-section entry: parameter and result lists of
abstract value-type codes. -/
structure FuncTypeM where
  params : List Nat
  results : List Nat
  deriving DecidableEq, Repr

/-- Modelled from the spec: `AST::FunctionType::operator==`, declared in a
header outside src/, is structural equality of the parameter and result
type lists ("a type-section index j whose function type equals an earlier
index i's function type"). -/
def funcTypeEq (a b : FuncTypeM) : Bool := a == b

/-- Composite type of a type-section entry: either a function type or a
non-function (struct/array) composite. -/
inductive CompTypeM where
  | funcT (ft : FuncTypeM)
  | otherT
  deriving DecidableEq, Repr

/-- Test used by the duplicate search of `Compiler::compile(TypeSection)`:
the entry is a function type equal to `ft`
(`CompositeTypes[J]->isFunc()` and `OldFuncType == CompType.getFuncType()`). -/
def CompTypeM.isFuncOf : CompTypeM → FuncTypeM → Bool
  | .funcT ft', ft => funcTypeEq ft' ft
  | .otherT, _ => false

/-- Entry of the per-module tables built by `Compiler::compile(TypeSection)`:
the pointed-to composite type (`CompositeTypes[i]`), the identity of the
pointer stored there (the index whose iteration created the pointed-to
object), and the identity of the wrapper function stored in
`FunctionWrappers[i]` (the index whose iteration created the wrapper
body). -/
structure TypeEntry where
  cty : CompTypeM
  ptrId : Nat
  wrapId : Nat
  deriving DecidableEq, Repr

/-- IR artifact emitted for one type-section index: an exported wrapper
function body `t{name}`, an empty wrapper body that immediately returns,
or an external alias `t{name}` of the wrapper created at index
`target`. -/
inductive TypeArtifact where
  | wrapperDef (name : Nat)
  | emptyWrapperDef (name : Nat)
  | aliasDef (name : Nat) (target : Nat)
  deriving DecidableEq, Repr

/-- One iteration of the type-section loop (compiler.cpp lines 5836-5946):
for a function type, search the existing composite-type table for the
first equal function type; when found, copy that entry's type pointer and
wrapper and emit an external alias named `t{i}` targeting the copied
wrapper; otherwise create the wrapper body.  Non-function types get an
empty wrapper.  `i` is `CompositeTypes.size()` at the top of the
iteration. -/
def typeSecStep (st : List TypeEntry × List TypeArtifact) (ty : CompTypeM) :
    List TypeEntry × List TypeArtifact :=
  let i := st.1.length
  match ty with
  | .funcT ft =>
    match st.1.find? (fun e => e.cty.isFuncOf ft) with
    | some e => (st.1 ++ [⟨e.cty, e.ptrId, e.wrapId⟩], st.2 ++ [.aliasDef i e.wrapId])
    | none => (st.1 ++ [⟨ty, i, i⟩], st.2 ++ [.wrapperDef i])
  | .otherT => (st.1 ++ [⟨ty, i, i⟩], st.2 ++ [.emptyWrapperDef i])

/-- Translation of `Compiler::compile(TypeSection)`: fold the per-index
step over the type section. -/
def compileTypeSec (ts : List CompTypeM) : List TypeEntry × List TypeArtifact :=
  ts.foldl typeSecStep ([], [])

/-- Index of the first type-section entry whose function type equals `ft`
(the list length when there is none). -/
def firstFuncIdx (ts : List CompTypeM) (ft : FuncTypeM) : Nat :=
  ts.findIdx (fun t => t.isFuncOf ft)

/-- Canonical pointer identity of index `i`: the first occurrence of its
function type, or `i` itself for non-function entries. -/
def resolveIdx (ts : List CompTypeM) (i : Nat) : Nat :=
  match ts.getD i .otherT with
  | .funcT ft => firstFuncIdx ts ft
  | .otherT => i

def canonEntry (ts : List CompTypeM) (i : Nat) : TypeEntry :=
  ⟨ts.getD i .otherT, resolveIdx ts i, resolveIdx ts i⟩

def canonEntries (ts : List CompTypeM) : List TypeEntry :=
  (List.range ts.length).map (canonEntry ts)

def canonArt (ts : List CompTypeM) (i : Nat) : TypeArtifact :=
  match ts.getD i .otherT with
  | .funcT ft =>
    if firstFuncIdx ts ft = i then .wrapperDef i
    else .aliasDef i (firstFuncIdx ts ft)
  | .otherT => .emptyWrapperDef i

def canonArts (ts : List CompTypeM) : List TypeArtifact :=
  (List.range ts.length).map (canonArt ts)

instance : Inhabited CompTypeM := ⟨.otherT⟩

/-- Extended float value: NaN, a signed infinity, or a finite value
represented exactly as a rational (every finite IEEE float is a
rational). -/
inductive FpVal where
  | nanV
  | infV (neg : Bool)
  | finV (q : ℚ)
  deriving DecidableEq, Repr

/-- Result of a trapping truncation lowering. -/
inductive TruncResult where
  | trapT (e : ErrCodeV)
  | valT (n : ℤ)
  deriving DecidableEq, Repr

/-- Truncation toward zero of a rational (semantics of the `llvm.trunc`
intrinsic on finite values; T-division by the positive denominator). -/
def ratTrunc (q : ℚ) : ℤ := Int.tdiv q.num (q.den : ℤ)

/-- Semantics of `llvm.trunc` on the extended values (the truncation of a
finite float is exactly representable, so no rounding is involved). -/
def fpTruncV : FpVal → FpVal
  | .finV q => .finV ((ratTrunc q : ℤ) : ℚ)
  | v => v

def fpIsNanV : FpVal → Bool
  | .nanV => true
  | _ => false

/-- Strict order on non-NaN extended values (IEEE comparisons; the zero
sign is already merged by the rational representation, which does not
affect the truncation range tests). -/
def fpLtV : FpVal → FpVal → Bool
  | .nanV, _ => false
  | _, .nanV => false
  | .infV false, _ => false
  | _, .infV false => true
  | .infV true, .infV true => false
  | .infV true, _ => true
  | _, .infV true => false
  | .finV a, .finV b => decide (a < b)

/-- LLVM `fcmp ord` (both operands not NaN). -/
def fcmpORDv (a b : FpVal) : Bool := !fpIsNanV a && !fpIsNanV b

/-- LLVM `fcmp oge`: ordered and not less. -/
def fcmpOGEv (a b : FpVal) : Bool := fcmpORDv a b && !fpLtV a b

/-- LLVM `fcmp ole`: ordered and not greater. -/
def fcmpOLEv (a b : FpVal) : Bool := fcmpORDv a b && !fpLtV b a

/-- LLVM `fcmp olt`: ordered and less. -/
def fcmpOLTv (a b : FpVal) : Bool := fcmpORDv a b && fpLtV a b

/-- Bit length with explicit fuel (structural recursion so that concrete
values reduce in the kernel; 128 units of fuel cover every value used
here). -/
def bitLenAux : Nat → Nat → Nat
  | 0, _ => 0
  | fuel + 1, n => if n = 0 then 0 else bitLenAux fuel (n >>> 1) + 1

/-- Number of binary digits of `a`. -/
def bitLen (a : Nat) : Nat := bitLenAux 128 a

/-- Round a natural number to the nearest (ties to even) value
representable with `prec` significant bits. -/
def roundNatRNE (prec a : Nat) : Nat :=
  if a < 2 ^ prec then a
  else
    (if 2 ^ ((bitLen a - prec) - 1) < a % 2 ^ (bitLen a - prec)
        ∨ (a % 2 ^ (bitLen a - prec) = 2 ^ ((bitLen a - prec) - 1)
          ∧ (a >>> (bitLen a - prec)) % 2 = 1)
      then a >>> (bitLen a - prec) + 1
      else a >>> (bitLen a - prec)) <<< (bitLen a - prec)

/-- Conversion of an integer constant to a float with `prec` significant
bits, rounding to nearest with ties to even — the semantics of
`LLVM::Value::getConstReal` applied to the integral range bounds in
`compileSignedTrunc` and friends. -/
def roundIntRNE (prec : Nat) (n : ℤ) : ℤ :=
  if n < 0 then -(roundNatRNE prec n.natAbs : ℤ) else (roundNatRNE prec n.natAbs : ℤ)

/-- `INT_MIN` of width `bw` as an integer. -/
def sMinC (bw : Nat) : ℤ := -((2 ^ (bw - 1) : ℕ) : ℤ)

/-- `INT_MAX` of width `bw` as an integer. -/
def sMaxC (bw : Nat) : ℤ := ((2 ^ (bw - 1) : ℕ) : ℤ) - 1

/-- `UINT_MAX` of width `bw` as an integer. -/
def uMaxC (bw : Nat) : ℤ := ((2 ^ bw : ℕ) : ℤ) - 1

/-- `fptosi`/`fptoui` on an in-range truncated value. -/
def fpToIntV : FpVal → ℤ
  | .finV q => ratTrunc q
  | _ => 0

/-- Common emitted decision structure of `compileSignedTrunc` and
`compileUnsignedTrunc` (compiler.cpp lines 3672-3719 and 3780-3827): test
NaN and branch to the invalid-conversion trap; truncate; test
`oge` against the rounded minimum constant, branching to the
integer-overflow trap; test `ole` (when the bit width fits in the float's
mantissa width, `Precise`) or `olt` (otherwise) against the rounded
maximum constant, branching to the integer-overflow trap; finally
convert. -/
def truncTrapCore (bw prec : Nat) (minI maxI : ℤ) (v : FpVal) : TruncResult :=
  if fcmpORDv v v = false then .trapT .invalidConvToInt
  else if fcmpOGEv (fpTruncV v) (.finV ((roundIntRNE prec minI : ℤ) : ℚ)) = false then
    .trapT .integerOverflow
  else if (if bw ≤ prec
      then fcmpOLEv (fpTruncV v) (.finV ((roundIntRNE prec maxI : ℤ) : ℚ))
      else fcmpOLTv (fpTruncV v) (.finV ((roundIntRNE prec maxI : ℤ) : ℚ))) = false then
    .trapT .integerOverflow
  else .valT (fpToIntV (fpTruncV v))

/-- Runtime behaviour of `compileSignedTrunc` with target width `bw` and a
source float of mantissa width `prec`. -/
def compileSignedTruncRun (bw prec : Nat) (v : FpVal) : TruncResult :=
  truncTrapCore bw prec (sMinC bw) (sMaxC bw) v

/-- Runtime behaviour of `compileUnsignedTrunc`. -/
def compileUnsignedTruncRun (bw prec : Nat) (v : FpVal) : TruncResult :=
  truncTrapCore bw prec 0 (uMaxC bw) v

/-- Emitted decision structure of `compileSignedTruncSat` (lines
3720-3779): same comparison path as the trapping form, but the end-block
PHI yields 0 for the NaN entry, `MinInt` for the underflow entry, and
`MaxInt` for the overflow entry. -/
def truncSatSignedCore (bw prec : Nat) (minI maxI : ℤ) (v : FpVal) : ℤ :=
  if fcmpORDv v v = false then 0
  else if fcmpOGEv (fpTruncV v) (.finV ((roundIntRNE prec minI : ℤ) : ℚ)) = false then minI
  else if (if bw ≤ prec
      then fcmpOLEv (fpTruncV v) (.finV ((roundIntRNE prec maxI : ℤ) : ℚ))
      else fcmpOLTv (fpTruncV v) (.finV ((roundIntRNE prec maxI : ℤ) : ℚ))) = false then maxI
  else fpToIntV (fpTruncV v)

def compileSignedTruncSatRun (bw prec : Nat) (v : FpVal) : ℤ :=
  truncSatSignedCore bw prec (sMinC bw) (sMaxC bw) v

/-- Emitted decision structure of `compileUnsignedTruncSat` (lines
3828-3879): no separate NaN branch — the `oge` underflow test also fails
on NaN, so the PHI yields `MinInt` (which is 0) there. -/
def truncSatUnsignedCore (bw prec : Nat) (minI maxI : ℤ) (v : FpVal) : ℤ :=
  if fcmpOGEv (fpTruncV v) (.finV ((roundIntRNE prec minI : ℤ) : ℚ)) = false then minI
  else if (if bw ≤ prec
      then fcmpOLEv (fpTruncV v) (.finV ((roundIntRNE prec maxI : ℤ) : ℚ))
      else fcmpOLTv (fpTruncV v) (.finV ((roundIntRNE prec maxI : ℤ) : ℚ))) = false then maxI
  else fpToIntV (fpTruncV v)

def compileUnsignedTruncSatRun (bw prec : Nat) (v : FpVal) : ℤ :=
  truncSatUnsignedCore bw prec 0 (uMaxC bw) v

/-- Reference semantics of a trapping truncation, written from the spec's
words: NaN traps with invalid-conversion-to-integer; a truncated value
outside the representable integer range traps with integer-overflow;
otherwise the truncated integer is produced. -/
def truncSpecFn (minI maxI : ℤ) (v : FpVal) : TruncResult :=
  match v with
  | .nanV => .trapT .invalidConvToInt
  | .infV _ => .trapT .integerOverflow
  | .finV q =>
    if ratTrunc q < minI then .trapT .integerOverflow
    else if maxI < ratTrunc q then .trapT .integerOverflow
    else .valT (ratTrunc q)

/-- Reference semantics of a saturating truncation, written from the
spec's words: 0 on NaN, the integer minimum on underflow, the integer
maximum on overflow, otherwise the truncated integer. -/
def truncSatSpecFn (minI maxI : ℤ) (v : FpVal) : ℤ :=
  match v with
  | .nanV => 0
  | .infV neg => if neg then minI else maxI
  | .finV q =>
    if ratTrunc q < minI then minI
    else if maxI < ratTrunc q then maxI
    else ratTrunc q

theorem shiftMask_mod (w rhs : Nat) (hw : w = 32 ∨ w = 64) :
    rhs &&& (w - 1) = (rhs % w) &&& (w - 1) := by
  rcases hw with h | h <;> subst h
  · show rhs &&& (2 ^ 5 - 1) = (rhs % 32) &&& (2 ^ 5 - 1)
    rw [Nat.and_pow_two_sub_one_eq_mod, Nat.and_pow_two_sub_one_eq_mod]
    show rhs % 32 = rhs % 32 % 32
    omega
  · show rhs &&& (2 ^ 6 - 1) = (rhs % 64) &&& (2 ^ 6 - 1)
    rw [Nat.and_pow_two_sub_one_eq_mod, Nat.and_pow_two_sub_one_eq_mod]
    show rhs % 64 = rhs % 64 % 64
    omega

/-- C8: for every i32/i64 shift operator (shl, shr_s, shr_u) the shift
amount is masked with the bit width minus one before shifting, so a shift
by any amount gives the same result as the shift by that amount modulo
the bit width. -/
theorem c8_shift_amount_mod (w lhs rhs : Nat) (hw : w = 32 ∨ w = 64) :
    compileShl w lhs rhs = compileShl w lhs (rhs % w) ∧
    compileShrU w lhs rhs = compileShrU w lhs (rhs % w) ∧
    compileShrS w lhs rhs = compileShrS w lhs (rhs % w) := by
  refine ⟨?_, ?_, ?_⟩ <;>
    simp only [compileShl, compileShrU, compileShrS, shiftMask_mod w rhs hw]

/-- C8 witness: a shift of 1 by 37 at width 32 equals the shift by 5. -/
theorem c8_shift_amount_mod_witness :
    compileShl 32 1 37 = compileShl 32 1 5 ∧ compileShl 32 1 37 = 32 := by
  refine ⟨(c8_shift_amount_mod 32 1 37 (Or.inl rfl)).1, ?_⟩
  decide

/-- C1 counterexample: `i32.rem_s` at `(INT32_MIN, -1)` does not reach the
integer-overflow trap block; the emitted PHI yields the value 0 (only
`i32.div_s` routes that pair to the integer-overflow trap). -/
theorem c1_remS_counterexample :
    compileRemS 32 (2 ^ 31) (2 ^ 32 - 1) = .val 0 ∧
    compileRemS 32 (2 ^ 31) (2 ^ 32 - 1) ≠ .trap .integerOverflow ∧
    compileDivS 32 (2 ^ 31) (2 ^ 32 - 1) = .trap .integerOverflow := by
  refine ⟨?_, ?_, ?_⟩ <;> decide

/-- C1 (amended): every i32/i64 division/remainder lowering branches to the
divide-by-zero trap block when the right operand is zero; the signed
division lowering additionally routes `INT_MIN / -1` to the
integer-overflow trap, while the signed remainder lowering guards
`INT_MIN % -1` but produces the value 0 instead of trapping, and never
reaches the integer-overflow trap for any operands. -/
theorem c1_div_rem_guards (w lhs rhs : Nat) :
    (rhs = 0 →
      compileDivS w lhs rhs = .trap .divideByZero ∧
      compileDivU w lhs rhs = .trap .divideByZero ∧
      compileRemS w lhs rhs = .trap .divideByZero ∧
      compileRemU w lhs rhs = .trap .divideByZero) ∧
    (rhs ≠ 0 → lhs = intMinBits w → rhs = minusOneBits w →
      compileDivS w lhs rhs = .trap .integerOverflow ∧
      compileRemS w lhs rhs = .val 0) ∧
    compileRemS w lhs rhs ≠ .trap .integerOverflow := by
  refine ⟨?_, ?_, ?_⟩
  · intro h
    subst h
    refine ⟨?_, ?_, ?_, ?_⟩ <;> simp [compileDivS, compileDivU, compileRemS, compileRemU]
  · intro h0 hmin hneg
    subst hmin; subst hneg
    constructor
    · simp [compileDivS, h0]
    · simp [compileRemS, h0]
  · unfold compileRemS
    split
    · split <;> simp
    · simp

/-- C1 amended-claim witness: the guards evaluated at width 32 with the
concrete operands (7, 0) and (INT32_MIN, -1). -/
theorem c1_div_rem_guards_witness :
    compileDivU 32 7 0 = .trap .divideByZero ∧
    compileDivS 32 (2 ^ 31) (2 ^ 32 - 1) = .trap .integerOverflow := by
  exact ⟨((c1_div_rem_guards 32 7 0).1 rfl).2.1,
    ((c1_div_rem_guards 32 (2 ^ 31) (2 ^ 32 - 1)).2.1 (by decide) rfl rfl).1⟩

theorem atomicAlignOk_mod (bw off : Nat) (hbw : bw = 8 ∨ bw = 16 ∨ bw = 32 ∨ bw = 64) :
    atomicAlignOk bw off = (off % (bw / 8) == 0) := by
  rcases hbw with h | h | h | h <;> subst h <;> unfold atomicAlignOk
  · show (off &&& (2 ^ 0 - 1) == 0) = (off % (2 ^ 0) == 0)
    rw [Nat.and_pow_two_sub_one_eq_mod]
  · show (off &&& (2 ^ 1 - 1) == 0) = (off % (2 ^ 1) == 0)
    rw [Nat.and_pow_two_sub_one_eq_mod]
  · show (off &&& (2 ^ 2 - 1) == 0) = (off % (2 ^ 2) == 0)
    rw [Nat.and_pow_two_sub_one_eq_mod]
  · show (off &&& (2 ^ 3 - 1) == 0) = (off % (2 ^ 3) == 0)
    rw [Nat.and_pow_two_sub_one_eq_mod]

/-- C6: every atomic access (load, store, RMW, compare-exchange, notify,
wait) checks that the dynamic address plus the static offset has its low
log2(width/8) bits zero — equivalently is divisible by the access width in
bytes — branching to the unaligned-atomic-access trap otherwise; the test
is independent of the static alignment annotation (which only feeds the IR
alignment attribute of the access); and the access itself, where it is
emitted as IR at all, is sequentially consistent. -/
theorem c6_atomic_alignment (memOffset align align' bw addr : Nat)
    (hbw : bw = 8 ∨ bw = 16 ∨ bw = 32 ∨ bw = 64) :
    ((compileAtomicLoadPlan memOffset align bw addr).alignOk
        = ((addr + memOffset) % (bw / 8) == 0) ∧
      (compileAtomicLoadPlan memOffset align bw addr).alignOk
        = (compileAtomicLoadPlan memOffset align' bw addr).alignOk ∧
      (compileAtomicLoadPlan memOffset align bw addr).alignTrap = .unalignedAtomicAccess ∧
      (compileAtomicLoadPlan memOffset align bw addr).ordering = some .seqcst) ∧
    ((compileAtomicStorePlan memOffset align bw addr).alignOk
        = ((addr + memOffset) % (bw / 8) == 0) ∧
      (compileAtomicStorePlan memOffset align bw addr).alignOk
        = (compileAtomicStorePlan memOffset align' bw addr).alignOk ∧
      (compileAtomicStorePlan memOffset align bw addr).alignTrap = .unalignedAtomicAccess ∧
      (compileAtomicStorePlan memOffset align bw addr).ordering = some .seqcst) ∧
    ((compileAtomicRMWPlan memOffset align bw addr).alignOk
        = ((addr + memOffset) % (bw / 8) == 0) ∧
      (compileAtomicRMWPlan memOffset align bw addr).alignOk
        = (compileAtomicRMWPlan memOffset align' bw addr).alignOk ∧
      (compileAtomicRMWPlan memOffset align bw addr).alignTrap = .unalignedAtomicAccess ∧
      (compileAtomicRMWPlan memOffset align bw addr).ordering = some .seqcst) ∧
    ((compileAtomicCmpXchgPlan memOffset align bw addr).alignOk
        = ((addr + memOffset) % (bw / 8) == 0) ∧
      (compileAtomicCmpXchgPlan memOffset align bw addr).alignOk
        = (compileAtomicCmpXchgPlan memOffset align' bw addr).alignOk ∧
      (compileAtomicCmpXchgPlan memOffset align bw addr).alignTrap = .unalignedAtomicAccess ∧
      (compileAtomicCmpXchgPlan memOffset align bw addr).ordering = some .seqcst) ∧
    ((compileAtomicNotifyPlan memOffset addr).alignOk
        = ((addr + memOffset) % 4 == 0) ∧
      (compileAtomicNotifyPlan memOffset addr).alignTrap = .unalignedAtomicAccess) ∧
    ((compileAtomicWaitPlan memOffset bw addr).alignOk
        = ((addr + memOffset) % (bw / 8) == 0) ∧
      (compileAtomicWaitPlan memOffset bw addr).alignTrap = .unalignedAtomicAccess) := by
  have hmod := atomicAlignOk_mod bw (addr + memOffset) hbw
  have h32 := atomicAlignOk_mod 32 (addr + memOffset) (Or.inr (Or.inr (Or.inl rfl)))
  refine ⟨⟨hmod, rfl, rfl, rfl⟩, ⟨hmod, rfl, rfl, rfl⟩, ⟨hmod, rfl, rfl, rfl⟩,
    ⟨hmod, rfl, rfl, rfl⟩, ⟨h32, rfl⟩, ⟨hmod, rfl⟩⟩

/-- C6 witness: a 32-bit atomic load at address 6 with static offset 2 is
aligned; at address 5 with static offset 2 it is not, whatever the static
alignment annotation says. -/
theorem c6_atomic_alignment_witness :
    (compileAtomicLoadPlan 2 0 32 6).alignOk = true ∧
    (compileAtomicLoadPlan 2 3 32 5).alignOk = false := by
  have h1 := (c6_atomic_alignment 2 0 0 32 6 (Or.inr (Or.inr (Or.inl rfl)))).1.1
  have h2 := (c6_atomic_alignment 2 3 3 32 5 (Or.inr (Or.inr (Or.inl rfl)))).1.1
  rw [h1, h2]
  exact ⟨rfl, rfl⟩

theorem updateGasLoop_flushed_le (cost limit : Nat) (attempts : List (Nat × Bool))
    (old s l : Nat) (h : updateGasLoop cost limit attempts old = .flushed s l) :
    s ≤ limit ∧ l = 0 := by
  induction attempts generalizing old with
  | nil => exact absurd h (by rw [updateGasLoop]; intro hc; cases hc)
  | cons a rest ih =>
    rw [updateGasLoop] at h
    by_cases hle : (old + cost) % 2 ^ 64 ≤ limit
    · rw [if_pos hle] at h
      by_cases hs : (a.1 == old && !a.2) = true
      · rw [if_pos hs] at h
        cases h
        exact ⟨hle, rfl⟩
      · rw [if_neg hs] at h
        exact ih a.1 h
    · rw [if_neg hle] at h
      cases h

/-- C3: `updateGas` is a compare-and-swap loop with monotonic ordering on
the shared gas cell.  Per iteration, with `newGas` the observed old value
plus the flushed local accumulator: when `newGas` exceeds the gas limit
control transfers to the cost-limit-exceeded trap block; otherwise the
weak CAS is attempted, and on CAS failure the loop retries with the
observed value, while on CAS success the shared cell holds the new total
(which never exceeds the limit) and the local accumulator is reset to
zero. -/
theorem c3_updateGas_cas_loop (cost limit old obs : Nat) (spurious : Bool)
    (rest : List (Nat × Bool)) :
    (updateGasPlan.loadOrdering = .monotonic ∧
      updateGasPlan.casSuccessOrdering = .monotonic ∧
      updateGasPlan.casFailureOrdering = .monotonic ∧
      updateGasPlan.casWeak = true ∧
      updateGasPlan.overrunTrap = .costLimitExceeded) ∧
    (¬ (old + cost) % 2 ^ 64 ≤ limit →
      updateGasLoop cost limit ((obs, spurious) :: rest) old = .trapCostLimit) ∧
    ((old + cost) % 2 ^ 64 ≤ limit → obs = old → spurious = false →
      updateGasLoop cost limit ((obs, spurious) :: rest) old
        = .flushed ((old + cost) % 2 ^ 64) 0) ∧
    ((old + cost) % 2 ^ 64 ≤ limit → ¬ (obs = old ∧ spurious = false) →
      updateGasLoop cost limit ((obs, spurious) :: rest) old
        = updateGasLoop cost limit rest obs) ∧
    (∀ attempts s l, updateGasLoop cost limit attempts old = .flushed s l →
      s ≤ limit ∧ l = 0) := by
  refine ⟨⟨rfl, rfl, rfl, rfl, rfl⟩, ?_, ?_, ?_, ?_⟩
  · intro h
    rw [updateGasLoop, if_neg h]
  · intro hle hobs hsp
    subst hobs; subst hsp
    rw [updateGasLoop, if_pos hle, if_pos (by simp)]
  · intro hle hfail
    rw [updateGasLoop, if_pos hle, if_neg ?_]
    intro hs
    rcases Bool.and_eq_true_iff.mp hs with ⟨h1, h2⟩
    exact hfail ⟨by simpa using h1, by simpa using h2⟩
  · intro attempts s l h
    exact updateGasLoop_flushed_le cost limit attempts old s l h

/-- C3 witness: with cost 5, limit 10 and initial shared value 3, a first
CAS attempt that observes 7 fails and retries with 7; the second iteration
computes 12 > 10 and traps. -/
theorem c3_updateGas_cas_loop_witness :
    updateGasLoop 5 10 [(7, false), (7, false)] 3 = .trapCostLimit ∧
    updateGasLoop 5 10 [(3, false)] 3 = .flushed 8 0 := by
  have h1 := (c3_updateGas_cas_loop 5 10 3 7 false [(7, false)]).2.2.2.1
    (by decide) (by decide)
  have h2 := (c3_updateGas_cas_loop 5 10 7 7 false []).2.1 (by decide)
  have h3 := (c3_updateGas_cas_loop 5 10 3 3 false []).2.2.1
    (by decide) rfl rfl
  exact ⟨h1.trans h2, h3⟩

theorem getTrapBBModel_nodup (cache : List (ErrCodeV × Nat)) (fresh : Nat) (e : ErrCodeV)
    (h : (cache.map Prod.fst).Nodup) :
    ((getTrapBBModel cache fresh e).1.map Prod.fst).Nodup := by
  unfold getTrapBBModel
  cases hf : cache.find? (fun p => p.1 == e) with
  | some p => exact h
  | none =>
    simp only [List.map_append, List.map_cons, List.map_nil]
    rw [List.nodup_append]
    refine ⟨h, List.nodup_singleton e, ?_⟩
    intro a ha hb
    simp only [List.mem_singleton] at hb
    subst hb
    rcases List.mem_map.mp ha with ⟨p, hp, hpe⟩
    have := List.find?_eq_none.mp hf p hp
    simp only [beq_iff_eq] at this
    exact this hpe

theorem errCodeNum_inj (e1 e2 : ErrCodeV) (h : errCodeNum e1 = errCodeNum e2) :
    e1 = e2 := by
  cases e1 <;> cases e2 <;> first | rfl | (exact absurd h (by decide))

theorem trapBlockBody_inj (hasInstrCount hasGas : Bool) (e1 e2 : ErrCodeV)
    (h : trapBlockBody hasInstrCount hasGas e1 = trapBlockBody hasInstrCount hasGas e2) :
    e1 = e2 := by
  unfold trapBlockBody at h
  rw [List.append_assoc, List.append_assoc] at h
  have h1 := List.append_inj_right h rfl
  have h2 := List.append_inj_right h1 rfl
  have h3 : TrapEpIns.callTrap (errCodeNum e1) true
      = TrapEpIns.callTrap (errCodeNum e2) true := by
    injection h2
  exact errCodeNum_inj e1 e2 (by injection h3)

theorem nodupKeys_entry_unique (l : List (ErrCodeV × Nat))
    (h : (l.map Prod.fst).Nodup) (a b : ErrCodeV × Nat)
    (ha : a ∈ l) (hb : b ∈ l) (hk : a.1 = b.1) : a = b := by
  induction l with
  | nil => cases ha
  | cons p rest ih =>
    simp only [List.map_cons, List.nodup_cons] at h
    rcases List.mem_cons.mp ha with ha1 | ha2 <;>
      rcases List.mem_cons.mp hb with hb1 | hb2
    · rw [ha1, hb1]
    · have hn := h.1
      rw [← ha1, hk] at hn
      exact absurd (List.mem_map_of_mem Prod.fst hb2) hn
    · have hn := h.1
      rw [← hb1, ← hk] at hn
      exact absurd (List.mem_map_of_mem Prod.fst ha2) hn
    · exact ih h.2 ha2 hb2

/-- C7: over a trap-block cache with pairwise-distinct error kinds (as
maintained by `getTrapBB`) the epilogue emits exactly one trap block per
recorded error kind; the block for kind `e` flushes the local instruction
counter and gas accumulator into their shared cells via plain monotonic
atomic adds, calls the shared trap helper with `e`'s integer code through
a no-return call site, and terminates with an unreachable instruction;
and the trap helper function itself carries the no-return, cold and
no-inline attributes. -/
theorem c7_trap_epilogue (hasInstrCount hasGas : Bool) (cache : List (ErrCodeV × Nat))
    (hnd : (cache.map Prod.fst).Nodup) (e : ErrCodeV) (bb : Nat)
    (he : (e, bb) ∈ cache) :
    ((bb, trapBlockBody hasInstrCount hasGas e) ∈ trapEpilogue hasInstrCount hasGas cache ∧
      ∀ q ∈ trapEpilogue hasInstrCount hasGas cache,
        q.2 = trapBlockBody hasInstrCount hasGas e →
        q = (bb, trapBlockBody hasInstrCount hasGas e)) ∧
    trapBlockBody hasInstrCount hasGas e
      = (if hasInstrCount then [TrapEpIns.atomicAddInstrCount .monotonic] else [])
        ++ (if hasGas then [TrapEpIns.atomicAddGas .monotonic] else [])
        ++ [.callTrap (errCodeNum e) true, .unreachableTerm] ∧
    FnAttr.noReturnAttr ∈ trapFnAttrs ∧
    FnAttr.coldAttr ∈ trapFnAttrs ∧
    FnAttr.noInlineAttr ∈ trapFnAttrs := by
  refine ⟨⟨?_, ?_⟩, rfl, by decide, by decide, by decide⟩
  · exact List.mem_map_of_mem _ he
  · intro q hq hbody
    rcases List.mem_map.mp hq with ⟨p, hp, hpe⟩
    have hkey : p.1 = e := by
      apply trapBlockBody_inj hasInstrCount hasGas
      have := congrArg Prod.snd hpe
      simp only at this
      rw [this, hbody]
    have : p = (e, bb) :=
      nodupKeys_entry_unique cache hnd p (e, bb) hp he hkey
    rw [← hpe, this]

/-- C7 witness: a cache holding divide-by-zero and integer-overflow blocks
yields exactly one epilogue block for divide-by-zero, with the expected
body. -/
theorem c7_trap_epilogue_witness :
    (10, trapBlockBody true true .divideByZero)
      ∈ trapEpilogue true true [(ErrCodeV.divideByZero, 10), (ErrCodeV.integerOverflow, 11)] := by
  exact (c7_trap_epilogue true true
    [(ErrCodeV.divideByZero, 10), (ErrCodeV.integerOverflow, 11)]
    (by decide) .divideByZero 10 (by decide)).1.1

/-- C5: for f32/f64 min and max, when the operands are ordered and compare
equal the result is the bitcast of the bitwise or (min) respectively and
(max) of their bit patterns — in particular min of -0.0 and +0.0 is -0.0
and max is +0.0; when the comparison is unordered (either operand NaN)
the result is the floating-point sum of the operands, which is a NaN
whenever the add instruction conforms to IEEE NaN propagation; and
otherwise the result is the platform minnum/maxnum intrinsic applied to
the operands. -/
theorem c5_fmin_fmax (fmt : FpFmt) (fadd minnum maxnum : Nat → Nat → Nat)
    (hadd : ∀ a b, fpIsNan fmt a = true ∨ fpIsNan fmt b = true →
      fpIsNan fmt (fadd a b) = true)
    (a b : Nat) :
    (fcmpOEQ fmt a b = true →
      compileFMin fmt fadd minnum a b = (a ||| b) ∧
      compileFMax fmt fadd maxnum a b = (a &&& b)) ∧
    (fcmpUNO fmt a b = true →
      compileFMin fmt fadd minnum a b = fadd a b ∧
      compileFMax fmt fadd maxnum a b = fadd a b ∧
      fpIsNan fmt (compileFMin fmt fadd minnum a b) = true ∧
      fpIsNan fmt (compileFMax fmt fadd maxnum a b) = true) ∧
    (fcmpUNO fmt a b = false → fcmpOEQ fmt a b = false →
      compileFMin fmt fadd minnum a b = minnum a b ∧
      compileFMax fmt fadd maxnum a b = maxnum a b) ∧
    (fmt = f32Fmt → a = f32NegZero → b = 0 →
      compileFMin fmt fadd minnum a b = f32NegZero ∧
      compileFMax fmt fadd maxnum a b = 0) := by
  have hoeqCase : ∀ x y, fcmpOEQ fmt x y = true →
      compileFMin fmt fadd minnum x y = (x ||| y) ∧
      compileFMax fmt fadd maxnum x y = (x &&& y) := by
    intro x y hoeq
    have huno : fcmpUNO fmt x y = false := by
      unfold fcmpOEQ at hoeq
      rcases Bool.and_eq_true_iff.mp hoeq with ⟨h1, _⟩
      rcases Bool.and_eq_true_iff.mp h1 with ⟨hx, hy⟩
      unfold fcmpUNO
      rw [Bool.not_eq_true' ] at hx hy
      rw [hx, hy]
      rfl
    have hueq : fcmpUEQ fmt x y = true := by
      unfold fcmpUEQ
      rw [hoeq, Bool.or_true]
    unfold compileFMin compileFMax
    rw [hueq, if_pos rfl, huno]
    exact ⟨rfl, rfl⟩
  refine ⟨hoeqCase a b, ?_, ?_, ?_⟩
  · intro huno
    have hueq : fcmpUEQ fmt a b = true := by
      unfold fcmpUEQ
      rw [huno, Bool.true_or]
    have hnan : fpIsNan fmt (fadd a b) = true := by
      apply hadd
      unfold fcmpUNO at huno
      exact Bool.or_eq_true_iff.mp huno
    unfold compileFMin compileFMax
    rw [hueq, huno]
    exact ⟨rfl, rfl, hnan, hnan⟩
  · intro huno hoeq
    have hueq : fcmpUEQ fmt a b = false := by
      unfold fcmpUEQ
      rw [huno, hoeq]
      rfl
    unfold compileFMin compileFMax
    rw [hueq]
    exact ⟨rfl, rfl⟩
  · intro hfmt ha hb
    subst hfmt; subst ha; subst hb
    rcases hoeqCase f32NegZero 0 (by decide) with ⟨h1, h2⟩
    rw [h1, h2]
    exact ⟨by decide, by decide⟩

/-- C5 witness: with a conforming add (the constant canonical NaN) and
first-projection minnum/maxnum, min(-0.0, +0.0) is -0.0 and
max(-0.0, +0.0) is +0.0 at the f32 format. -/
theorem c5_fmin_fmax_witness :
    compileFMin f32Fmt (fun _ _ => 2143289344) (fun x _ => x) f32NegZero 0 = f32NegZero ∧
    compileFMax f32Fmt (fun _ _ => 2143289344) (fun x _ => x) f32NegZero 0 = 0 := by
  exact (c5_fmin_fmax f32Fmt (fun _ _ => 2143289344) (fun x _ => x) (fun x _ => x)
    (fun a b _ => show fpIsNan f32Fmt 2143289344 = true by decide)
    f32NegZero 0).2.2.2 rfl rfl rfl

/-- C2 counterexample: with the current frame unreachable, translating the
non-control instruction `i32.add` leaves the state — in particular the
operand stack — completely unchanged: no undefined value is produced for
its pops, and the stack height (2) does not match the validator's decoded
height after an `i32.add` (1). -/
theorem c2_unreachable_counterexample :
    dispatchStep .i32AddOp c2State = c2State ∧
    (dispatchStep .i32AddOp c2State).stack ≠ IRVal.undef :: c2State.stack.drop 2 ∧
    (dispatchStep .i32AddOp c2State).stack.length ≠ c2State.stack.length - 2 + 1 := by
  refine ⟨?_, ?_, ?_⟩ <;> decide

/-- C2 (amended): while the current control frame is marked unreachable,
translating a non-control instruction emits no IR and performs no operand
consumption at all — the translator state is unchanged, rather than
popping and producing undefined values; undefined values are introduced
only by the control instructions: a `block` entered in unreachable state
pushes undefined entry arguments without popping, and the matching `end`
truncates the operand stack to the frame's recorded base and pushes
undefined result values, so the height accounting is re-synchronised at
the `end`, not at every instruction boundary. -/
theorem c2_unreachable_skip (s : TransState) (i : WInstr)
    (h : s.isUnreachable = true) (hi : isNonControlInstr i = true) :
    dispatchStep i s = s ∧
    (∀ p r, (dispatchStep (.blockOp p r) s).stack
        = List.replicate p IRVal.undef ++ s.stack ∧
      (dispatchStep (.blockOp p r) s).ir = s.ir ++ [.brEvent]) ∧
    (∀ f rest, s.ctrl = f :: rest →
      (dispatchStep .endOp s).stack
        = List.replicate f.resultAr IRVal.undef
          ++ s.stack.drop (s.stack.length - f.stackBase)) := by
  refine ⟨?_, ?_, ?_⟩
  · cases i with
    | blockOp p r => exact absurd hi (by simp [isNonControlInstr])
    | endOp => exact absurd hi (by simp [isNonControlInstr])
    | i32ConstOp n => simp only [dispatchStep]; rw [if_pos h]
    | i32AddOp => simp only [dispatchStep]; rw [if_pos h]
    | dropIns => simp only [dispatchStep]; rw [if_pos h]
    | unreachableOp => simp only [dispatchStep]; rw [if_pos h]
  · intro p r
    simp only [dispatchStep]
    rw [if_pos h]
    exact ⟨rfl, rfl⟩
  · intro f rest hctrl
    have hflag : f.unreachableFlag = true := by
      unfold TransState.isUnreachable at h
      rw [hctrl] at h
      exact h
    simp only [dispatchStep, hctrl]
    rw [if_pos hflag]

/-- C2 amended-claim witness: the skip evaluated at the concrete
counterexample state with `drop`. -/
theorem c2_unreachable_skip_witness :
    dispatchStep .dropIns c2State = c2State ∧
    (dispatchStep (.blockOp 2 1) c2State).stack
      = [IRVal.undef, IRVal.undef, IRVal.intConst 1, IRVal.intConst 2] := by
  have h := c2_unreachable_skip c2State .dropIns rfl rfl
  refine ⟨h.1, ?_⟩
  rw [(h.2.1 2 1).1]
  decide

theorem basesOK_mono (h h' : Nat) (l : List CtrlFrame)
    (hb : basesOK h l = true) (hle : h ≤ h') : basesOK h' l = true := by
  cases l with
  | nil => rfl
  | cons f rest =>
    rw [basesOK] at hb ⊢
    rcases Bool.and_eq_true_iff.mp hb with ⟨h1, h2⟩
    refine Bool.and_eq_true_iff.mpr ⟨?_, h2⟩
    exact decide_eq_true (Nat.le_trans (of_decide_eq_true h1) hle)

/-- C9: every primitive translator operation preserves the stack
invariant — the operand-stack height never drops below the innermost
frame's recorded stack-base (`stackPop` being guarded by its assertion
that the height strictly exceeds the base) — and `leaveBlock` truncates
the operand stack back to exactly the popped frame's stack-base. -/
theorem c9_stack_invariant (op : TransOp) (s : TransState)
    (hinv : stackInv s = true) (hpre : transOpPre op s = true) :
    stackInv (applyTransOp op s) = true ∧
    (∀ f rest, op = .leaveOp → s.ctrl = f :: rest →
      (applyTransOp op s).stack.length = f.stackBase) := by
  have hlen : ∀ f rest, s.ctrl = f :: rest → op = TransOp.leaveOp →
      (applyTransOp op s).stack.length = f.stackBase := by
    intro f rest hctrl hop
    subst hop
    simp only [applyTransOp, hctrl]
    unfold stackInv at hinv
    rw [hctrl, basesOK] at hinv
    rcases Bool.and_eq_true_iff.mp hinv with ⟨h1, _⟩
    have hbase : f.stackBase ≤ s.stack.length := of_decide_eq_true h1
    simp only [transOpPre, hctrl] at hpre
    by_cases hu : f.unreachableFlag = true
    · rw [if_pos hu]
      simp only [List.length_drop]
      omega
    · rw [if_neg hu]
      have hre : f.stackBase + f.resultAr ≤ s.stack.length := by
        rcases Bool.or_eq_true_iff.mp hpre with h2 | h2
        · exact absurd h2 hu
        · exact of_decide_eq_true h2
      simp only [List.length_drop]
      omega
  refine ⟨?_, fun f rest hop hctrl => hlen f rest hctrl hop⟩
  cases op with
  | pushOp v =>
    unfold stackInv at hinv ⊢
    simp only [applyTransOp, List.length_cons]
    exact basesOK_mono _ _ _ hinv (Nat.le_succ _)
  | popOp =>
    unfold stackInv at hinv ⊢
    simp only [applyTransOp, List.length_tail]
    cases hctrl : s.ctrl with
    | nil => rfl
    | cons f rest =>
      rw [hctrl, basesOK] at hinv
      rcases Bool.and_eq_true_iff.mp hinv with ⟨_, h2⟩
      simp only [transOpPre, hctrl] at hpre
      rcases Bool.and_eq_true_iff.mp hpre with ⟨_, h4⟩
      have : f.stackBase < s.stack.length := of_decide_eq_true h4
      rw [basesOK]
      refine Bool.and_eq_true_iff.mpr ⟨decide_eq_true ?_, h2⟩
      omega
  | enterOp args results =>
    unfold stackInv at hinv ⊢
    simp only [applyTransOp, List.length_append, List.length_reverse]
    rw [basesOK]
    refine Bool.and_eq_true_iff.mpr ⟨decide_eq_true ?_, hinv⟩
    show s.stack.length ≤ args.length + s.stack.length
    omega
  | leaveOp =>
    unfold stackInv at hinv ⊢
    cases hctrl : s.ctrl with
    | nil => simp only [applyTransOp, hctrl]; rw [hctrl] at hinv; exact hinv
    | cons f rest =>
      have hl := hlen f rest hctrl rfl
      simp only [applyTransOp, hctrl] at hl ⊢
      rw [hctrl, basesOK] at hinv
      rcases Bool.and_eq_true_iff.mp hinv with ⟨_, h2⟩
      rw [hl]
      exact h2

/-- C9 witness: popping with two operands above a frame whose base is 1
keeps the invariant; leaving a one-result frame with base 1 truncates the
stack to height 1. -/
theorem c9_stack_invariant_witness :
    stackInv (applyTransOp .popOp
      ⟨[IRVal.intConst 5, IRVal.intConst 6], [⟨1, false, 0, 0⟩], [], false⟩) = true ∧
    (applyTransOp .leaveOp
      ⟨[IRVal.intConst 5, IRVal.intConst 6], [⟨1, false, 1, 1⟩], [], false⟩).stack.length = 1 := by
  constructor
  · exact (c9_stack_invariant .popOp
      ⟨[IRVal.intConst 5, IRVal.intConst 6], [⟨1, false, 0, 0⟩], [], false⟩
      (by decide) (by decide)).1
  · exact (c9_stack_invariant .leaveOp
      ⟨[IRVal.intConst 5, IRVal.intConst 6], [⟨1, false, 1, 1⟩], [], false⟩
      (by decide) (by decide)).2 ⟨1, false, 1, 1⟩ [] rfl rfl

theorem findIdx_append_of_lt {α : Type} (p : α → Bool) (l l' : List α)
    (h : l.findIdx p < l.length) : (l ++ l').findIdx p = l.findIdx p := by
  induction l with
  | nil => exact absurd h (by simp)
  | cons x xs ih =>
    rw [List.cons_append, List.findIdx_cons, List.findIdx_cons]
    cases hx : p x with
    | true => rfl
    | false =>
      simp only [cond_false]
      rw [List.findIdx_cons, hx] at h
      simp only [cond_false, List.length_cons] at h
      rw [ih (Nat.lt_of_succ_lt_succ h)]

theorem findIdx_concat_self {α : Type} (p : α → Bool) (l : List α) (x : α)
    (h : l.findIdx p = l.length) (hx : p x = true) :
    (l ++ [x]).findIdx p = l.length := by
  induction l with
  | nil => simp [List.findIdx_cons, hx]
  | cons y ys ih =>
    rw [List.cons_append, List.findIdx_cons]
    rw [List.findIdx_cons] at h
    cases hy : p y with
    | true => rw [hy] at h; simp at h
    | false =>
      rw [hy] at h
      simp only [cond_false, List.length_cons] at h ⊢
      rw [ih (Nat.succ_injective h)]

theorem findIdx_le_of_getD {α : Type} [Inhabited α] (p : α → Bool) (l : List α)
    (j : Nat) (hj : j < l.length) (hp : p (l.getD j default) = true) :
    l.findIdx p ≤ j := by
  by_contra hcon
  push_neg at hcon
  have hfalse := List.not_of_lt_findIdx hcon
  rw [List.getD_eq_getElem _ _ hj] at hp
  rw [hp] at hfalse
  cases hfalse

theorem getD_concat_lt {α : Type} (l : List α) (x d : α) (i : Nat)
    (h : i < l.length) : (l ++ [x]).getD i d = l.getD i d :=
  List.getD_append _ _ _ _ h

theorem getD_concat_self {α : Type} (l : List α) (x d : α) :
    (l ++ [x]).getD l.length d = x := by
  rw [List.getD_append_right _ _ _ _ (Nat.le_refl _)]
  simp

theorem isFuncOf_self (ft : FuncTypeM) : CompTypeM.isFuncOf (.funcT ft) ft = true := by
  simp [CompTypeM.isFuncOf, funcTypeEq]

theorem firstFuncIdx_le (ts : List CompTypeM) (ft : FuncTypeM) (i : Nat)
    (hi : i < ts.length) (hty : ts.getD i .otherT = .funcT ft) :
    firstFuncIdx ts ft ≤ i := by
  apply findIdx_le_of_getD _ _ _ hi
  show CompTypeM.isFuncOf (ts.getD i default) ft = true
  show CompTypeM.isFuncOf (ts.getD i .otherT) ft = true
  rw [hty]
  exact isFuncOf_self ft

theorem resolveIdx_concat (ts : List CompTypeM) (t : CompTypeM) (i : Nat)
    (hi : i < ts.length) : resolveIdx (ts ++ [t]) i = resolveIdx ts i := by
  unfold resolveIdx
  rw [getD_concat_lt _ _ _ _ hi]
  cases hty : ts.getD i .otherT with
  | otherT => rfl
  | funcT ft =>
    have hle := firstFuncIdx_le ts ft i hi hty
    exact findIdx_append_of_lt _ _ _ (Nat.lt_of_le_of_lt hle hi)

theorem canonEntry_concat (ts : List CompTypeM) (t : CompTypeM) (i : Nat)
    (hi : i < ts.length) : canonEntry (ts ++ [t]) i = canonEntry ts i := by
  unfold canonEntry
  rw [getD_concat_lt _ _ _ _ hi, resolveIdx_concat ts t i hi]

theorem canonArt_concat (ts : List CompTypeM) (t : CompTypeM) (i : Nat)
    (hi : i < ts.length) : canonArt (ts ++ [t]) i = canonArt ts i := by
  unfold canonArt
  rw [getD_concat_lt _ _ _ _ hi]
  cases hty : ts.getD i .otherT with
  | otherT => rfl
  | funcT ft =>
    have hle := firstFuncIdx_le ts ft i hi hty
    show (if firstFuncIdx (ts ++ [t]) ft = i then TypeArtifact.wrapperDef i
        else TypeArtifact.aliasDef i (firstFuncIdx (ts ++ [t]) ft))
      = (if firstFuncIdx ts ft = i then TypeArtifact.wrapperDef i
        else TypeArtifact.aliasDef i (firstFuncIdx ts ft))
    rw [show firstFuncIdx (ts ++ [t]) ft = firstFuncIdx ts ft from
      findIdx_append_of_lt _ _ _ (Nat.lt_of_le_of_lt hle hi)]

theorem find?_range_map_none {β : Type} (g : Nat → β) (p : β → Bool) (n : Nat)
    (hall : ∀ j, j < n → p (g j) = false) :
    ((List.range n).map g).find? p = none := by
  induction n with
  | zero => rfl
  | succ m ih =>
    rw [List.range_succ, List.map_append, List.find?_append,
      ih (fun j hj => hall j (Nat.lt_succ_of_lt hj))]
    simp [List.find?_cons, hall m (Nat.lt_succ_self m)]

theorem find?_range_map_some {β : Type} (g : Nat → β) (p : β → Bool) (n k : Nat)
    (hk : k < n) (hq : p (g k) = true) (hmin : ∀ j, j < k → p (g j) = false) :
    ((List.range n).map g).find? p = some (g k) := by
  induction n with
  | zero => exact absurd hk (Nat.not_lt_zero k)
  | succ m ih =>
    rw [List.range_succ, List.map_append, List.find?_append]
    by_cases hkm : k < m
    · rw [ih hkm]
      rfl
    · have hkm2 : k = m := by omega
      subst hkm2
      rw [find?_range_map_none g p k hmin]
      simp [List.find?_cons, hq]

theorem find?_canonEntries (ts : List CompTypeM) (ft : FuncTypeM) :
    (canonEntries ts).find? (fun e => e.cty.isFuncOf ft)
      = if firstFuncIdx ts ft < ts.length
        then some (canonEntry ts (firstFuncIdx ts ft))
        else none := by
  unfold canonEntries
  split
  case isTrue h =>
    apply find?_range_map_some _ _ _ _ h
    · show CompTypeM.isFuncOf (canonEntry ts (firstFuncIdx ts ft)).cty ft = true
      show CompTypeM.isFuncOf (ts.getD (firstFuncIdx ts ft) .otherT) ft = true
      rw [List.getD_eq_getElem _ _ h]
      have hw : ts.findIdx (fun t => CompTypeM.isFuncOf t ft) < ts.length := h
      have hval := List.findIdx_get (p := fun t => CompTypeM.isFuncOf t ft) (w := hw)
      exact hval
    · intro j hj
      show CompTypeM.isFuncOf (canonEntry ts j).cty ft = false
      show CompTypeM.isFuncOf (ts.getD j .otherT) ft = false
      rw [List.getD_eq_getElem _ _ (Nat.lt_trans hj h)]
      have hlt : j < ts.findIdx (fun t => CompTypeM.isFuncOf t ft) := hj
      have := List.not_of_lt_findIdx hlt
      exact this
  case isFalse h =>
    apply find?_range_map_none
    intro j hj
    show CompTypeM.isFuncOf (canonEntry ts j).cty ft = false
    show CompTypeM.isFuncOf (ts.getD j .otherT) ft = false
    rw [List.getD_eq_getElem _ _ hj]
    have hle : ts.findIdx (fun t => CompTypeM.isFuncOf t ft) ≤ ts.length :=
      List.findIdx_le_length (fun t => CompTypeM.isFuncOf t ft)
    have hlt : j < ts.findIdx (fun t => CompTypeM.isFuncOf t ft) := by
      have hge : ts.findIdx (fun t => CompTypeM.isFuncOf t ft) = ts.length := by
        have : firstFuncIdx ts ft = ts.findIdx (fun t => CompTypeM.isFuncOf t ft) := rfl
        omega
      omega
    have := List.not_of_lt_findIdx hlt
    exact this

theorem getD_of_findIdx_lt {α : Type} [Inhabited α] (p : α → Bool) (l : List α)
    (h : l.findIdx p < l.length) : p (l.getD (l.findIdx p) default) = true := by
  rw [List.getD_eq_getElem _ _ h]
  have hval := List.findIdx_get (p := p) (w := h)
  exact hval

theorem getD_firstFuncIdx (ts : List CompTypeM) (ft : FuncTypeM)
    (h : firstFuncIdx ts ft < ts.length) :
    ts.getD (firstFuncIdx ts ft) .otherT = .funcT ft := by
  have hp : CompTypeM.isFuncOf (ts.getD (firstFuncIdx ts ft) .otherT) ft = true :=
    getD_of_findIdx_lt (fun t => CompTypeM.isFuncOf t ft) ts h
  cases hty : ts.getD (firstFuncIdx ts ft) .otherT with
  | funcT ft2 =>
    rw [hty] at hp
    have : ft2 = ft := by
      simpa [CompTypeM.isFuncOf, funcTypeEq] using hp
    rw [this]
  | otherT =>
    rw [hty] at hp
    cases hp

theorem resolveIdx_firstFuncIdx (ts : List CompTypeM) (ft : FuncTypeM)
    (h : firstFuncIdx ts ft < ts.length) :
    resolveIdx ts (firstFuncIdx ts ft) = firstFuncIdx ts ft := by
  unfold resolveIdx
  rw [getD_firstFuncIdx ts ft h]

theorem canonEntries_concat (ts : List CompTypeM) (t : CompTypeM) :
    canonEntries (ts ++ [t])
      = canonEntries ts ++ [canonEntry (ts ++ [t]) ts.length] := by
  unfold canonEntries
  have hl : (ts ++ [t]).length = ts.length + 1 := by simp
  rw [hl, List.range_succ, List.map_append]
  congr 1
  apply List.map_congr_left
  intro i hi
  exact canonEntry_concat ts t i (List.mem_range.mp hi)

theorem canonArts_concat (ts : List CompTypeM) (t : CompTypeM) :
    canonArts (ts ++ [t])
      = canonArts ts ++ [canonArt (ts ++ [t]) ts.length] := by
  unfold canonArts
  have hl : (ts ++ [t]).length = ts.length + 1 := by simp
  rw [hl, List.range_succ, List.map_append]
  congr 1
  apply List.map_congr_left
  intro i hi
  exact canonArt_concat ts t i (List.mem_range.mp hi)

theorem canonEntries_length (ts : List CompTypeM) :
    (canonEntries ts).length = ts.length := by
  simp [canonEntries]

theorem typeSecStep_canon (ts : List CompTypeM) (t : CompTypeM) :
    typeSecStep (canonEntries ts, canonArts ts) t
      = (canonEntries (ts ++ [t]), canonArts (ts ++ [t])) := by
  cases t with
  | otherT =>
    show (canonEntries ts ++ [⟨.otherT, (canonEntries ts).length, (canonEntries ts).length⟩],
        canonArts ts ++ [.emptyWrapperDef (canonEntries ts).length]) = _
    rw [canonEntries_concat, canonArts_concat, canonEntries_length]
    have h1 : canonEntry (ts ++ [.otherT]) ts.length
        = ⟨.otherT, ts.length, ts.length⟩ := by
      unfold canonEntry resolveIdx
      rw [getD_concat_self]
    have h2 : canonArt (ts ++ [.otherT]) ts.length
        = .emptyWrapperDef ts.length := by
      unfold canonArt
      rw [getD_concat_self]
    rw [h1, h2]
  | funcT ft =>
    show (match (canonEntries ts).find? (fun e => e.cty.isFuncOf ft) with
      | some e => (canonEntries ts ++ [(⟨e.cty, e.ptrId, e.wrapId⟩ : TypeEntry)],
          canonArts ts ++ [TypeArtifact.aliasDef (canonEntries ts).length e.wrapId])
      | none => (canonEntries ts
            ++ [(⟨.funcT ft, (canonEntries ts).length, (canonEntries ts).length⟩ : TypeEntry)],
          canonArts ts ++ [TypeArtifact.wrapperDef (canonEntries ts).length]))
      = (canonEntries (ts ++ [CompTypeM.funcT ft]), canonArts (ts ++ [CompTypeM.funcT ft]))
    rw [find?_canonEntries, canonEntries_concat, canonArts_concat, canonEntries_length]
    by_cases h : firstFuncIdx ts ft < ts.length
    · rw [if_pos h]
      show (canonEntries ts ++ [⟨(canonEntry ts (firstFuncIdx ts ft)).cty,
            (canonEntry ts (firstFuncIdx ts ft)).ptrId,
            (canonEntry ts (firstFuncIdx ts ft)).wrapId⟩],
          canonArts ts ++ [.aliasDef ts.length (canonEntry ts (firstFuncIdx ts ft)).wrapId]) = _
      have hcty : (canonEntry ts (firstFuncIdx ts ft)).cty = .funcT ft :=
        getD_firstFuncIdx ts ft h
      have hptr : (canonEntry ts (firstFuncIdx ts ft)).ptrId = firstFuncIdx ts ft :=
        resolveIdx_firstFuncIdx ts ft h
      have hwrap : (canonEntry ts (firstFuncIdx ts ft)).wrapId = firstFuncIdx ts ft :=
        resolveIdx_firstFuncIdx ts ft h
      have hfst : firstFuncIdx (ts ++ [CompTypeM.funcT ft]) ft = firstFuncIdx ts ft :=
        findIdx_append_of_lt _ _ _ h
      have h1 : canonEntry (ts ++ [CompTypeM.funcT ft]) ts.length
          = ⟨.funcT ft, firstFuncIdx ts ft, firstFuncIdx ts ft⟩ := by
        unfold canonEntry resolveIdx
        rw [getD_concat_self]
        show ({ cty := CompTypeM.funcT ft,
                ptrId := firstFuncIdx (ts ++ [CompTypeM.funcT ft]) ft,
                wrapId := firstFuncIdx (ts ++ [CompTypeM.funcT ft]) ft } : TypeEntry) = _
        rw [hfst]
      have h2 : canonArt (ts ++ [CompTypeM.funcT ft]) ts.length
          = .aliasDef ts.length (firstFuncIdx ts ft) := by
        unfold canonArt
        rw [getD_concat_self]
        show (if firstFuncIdx (ts ++ [CompTypeM.funcT ft]) ft = ts.length
            then TypeArtifact.wrapperDef ts.length
            else TypeArtifact.aliasDef ts.length (firstFuncIdx (ts ++ [CompTypeM.funcT ft]) ft)) = _
        rw [hfst, if_neg (by omega)]
      rw [hcty, hptr, hwrap, h1, h2]
    · rw [if_neg h]
      have hlen : firstFuncIdx ts ft = ts.length := by
        have : ts.findIdx (fun t => CompTypeM.isFuncOf t ft) ≤ ts.length :=
          List.findIdx_le_length (fun t => CompTypeM.isFuncOf t ft)
        have h2 : firstFuncIdx ts ft ≤ ts.length := this
        omega
      have hfst : firstFuncIdx (ts ++ [CompTypeM.funcT ft]) ft = ts.length :=
        findIdx_concat_self _ _ _ hlen (isFuncOf_self ft)
      have h1 : canonEntry (ts ++ [CompTypeM.funcT ft]) ts.length
          = ⟨.funcT ft, ts.length, ts.length⟩ := by
        unfold canonEntry resolveIdx
        rw [getD_concat_self]
        show ({ cty := CompTypeM.funcT ft,
                ptrId := firstFuncIdx (ts ++ [CompTypeM.funcT ft]) ft,
                wrapId := firstFuncIdx (ts ++ [CompTypeM.funcT ft]) ft } : TypeEntry) = _
        rw [hfst]
      have h2 : canonArt (ts ++ [CompTypeM.funcT ft]) ts.length
          = .wrapperDef ts.length := by
        unfold canonArt
        rw [getD_concat_self]
        show (if firstFuncIdx (ts ++ [CompTypeM.funcT ft]) ft = ts.length
            then TypeArtifact.wrapperDef ts.length
            else TypeArtifact.aliasDef ts.length (firstFuncIdx (ts ++ [CompTypeM.funcT ft]) ft)) = _
        rw [hfst, if_pos rfl]
      rw [h1, h2]

theorem compileTypeSec_canonical (ts : List CompTypeM) :
    compileTypeSec ts = (canonEntries ts, canonArts ts) := by
  induction ts using List.reverseRecOn with
  | nil => rfl
  | append_singleton ts t ih =>
    unfold compileTypeSec
    rw [List.foldl_append]
    show typeSecStep (compileTypeSec ts) t = _
    rw [ih, typeSecStep_canon]

theorem canonArt_funcT (ts : List CompTypeM) (m : Nat) (ft : FuncTypeM)
    (h : ts.getD m .otherT = .funcT ft) :
    canonArt ts m = if firstFuncIdx ts ft = m then .wrapperDef m
      else .aliasDef m (firstFuncIdx ts ft) := by
  unfold canonArt
  rw [h]

theorem canonArt_otherT (ts : List CompTypeM) (m : Nat)
    (h : ts.getD m .otherT = .otherT) :
    canonArt ts m = .emptyWrapperDef m := by
  unfold canonArt
  rw [h]

theorem resolveIdx_funcT (ts : List CompTypeM) (m : Nat) (ft : FuncTypeM)
    (h : ts.getD m .otherT = .funcT ft) :
    resolveIdx ts m = firstFuncIdx ts ft := by
  unfold resolveIdx
  rw [h]

theorem canonEntries_getD (ts : List CompTypeM) (m : Nat) (hm : m < ts.length)
    (d : TypeEntry) : (canonEntries ts).getD m d = canonEntry ts m := by
  unfold canonEntries
  rw [List.getD_eq_getElem _ _ (by simpa using hm)]
  simp

theorem canonArts_getD (ts : List CompTypeM) (m : Nat) (hm : m < ts.length)
    (d : TypeArtifact) : (canonArts ts).getD m d = canonArt ts m := by
  unfold canonArts
  rw [List.getD_eq_getElem _ _ (by simpa using hm)]
  simp

/-- C10: in the type-section compilation, a type-section index `j` whose
function type equals an earlier index `i`'s function type is emitted as an
external alias `t{j}` targeting the wrapper of the first occurrence `k` of
that function type (`k ≤ i`, where the actual wrapper body `t{k}` is
created); the composite-type table entry for `j` holds the same pointer as
the entry for `i` (both the pointer identity of the first occurrence), and
`FunctionWrappers[j]` is the wrapper created at `k`, so a wrapper body is
created only for the first occurrence of each distinct function type.
Non-function composite types get an empty wrapper that immediately
returns. -/
theorem c10_type_dedup (ts : List CompTypeM) (i j : Nat) (ft ft' : FuncTypeM)
    (hj : j < ts.length) (hij : i < j)
    (htyj : ts.getD j .otherT = .funcT ft)
    (htyi : ts.getD i .otherT = .funcT ft')
    (heq : funcTypeEq ft' ft = true) :
    (∃ k, k ≤ i ∧
      (compileTypeSec ts).2.getD j (.emptyWrapperDef 0) = .aliasDef j k ∧
      (compileTypeSec ts).2.getD k (.emptyWrapperDef 0) = .wrapperDef k ∧
      ((compileTypeSec ts).1.getD j ⟨.otherT, 0, 0⟩).ptrId
        = ((compileTypeSec ts).1.getD i ⟨.otherT, 0, 0⟩).ptrId ∧
      ((compileTypeSec ts).1.getD j ⟨.otherT, 0, 0⟩).wrapId = k) ∧
    (∀ m, m < ts.length → ts.getD m .otherT = .otherT →
      (compileTypeSec ts).2.getD m (.emptyWrapperDef 0) = .emptyWrapperDef m) ∧
    (∀ m g, m < ts.length → ts.getD m .otherT = .funcT g →
      ((compileTypeSec ts).2.getD m (.emptyWrapperDef 0) = .wrapperDef m
        ↔ firstFuncIdx ts g = m)) := by
  have hft : ft' = ft := by simpa [funcTypeEq] using heq
  subst hft
  have hi : i < ts.length := Nat.lt_trans hij hj
  rw [compileTypeSec_canonical]
  refine ⟨⟨firstFuncIdx ts ft', ?_, ?_, ?_, ?_, ?_⟩, ?_, ?_⟩
  · exact firstFuncIdx_le ts ft' i hi htyi
  · have hne : firstFuncIdx ts ft' ≠ j := by
      have := firstFuncIdx_le ts ft' i hi htyi
      omega
    rw [canonArts_getD ts j hj, canonArt_funcT ts j ft' htyj, if_neg hne]
  · have hk : firstFuncIdx ts ft' < ts.length := by
      have := firstFuncIdx_le ts ft' i hi htyi
      omega
    rw [canonArts_getD ts _ hk,
      canonArt_funcT ts _ ft' (getD_firstFuncIdx ts ft' hk), if_pos rfl]
  · rw [canonEntries_getD ts j hj, canonEntries_getD ts i hi]
    show resolveIdx ts j = resolveIdx ts i
    rw [resolveIdx_funcT ts j ft' htyj, resolveIdx_funcT ts i ft' htyi]
  · rw [canonEntries_getD ts j hj]
    show resolveIdx ts j = firstFuncIdx ts ft'
    rw [resolveIdx_funcT ts j ft' htyj]
  · intro m hm hty
    rw [canonArts_getD ts m hm, canonArt_otherT ts m hty]
  · intro m g hm hty
    rw [canonArts_getD ts m hm, canonArt_funcT ts m g hty]
    constructor
    · intro har
      by_cases hfi : firstFuncIdx ts g = m
      · exact hfi
      · rw [if_neg hfi] at har
        cases har
    · intro hfi
      rw [if_pos hfi]

/-- C10 witness: with a three-entry type section whose third entry repeats
the first function type, index 2 becomes an alias of wrapper 0, the
wrapper body is created only at index 0, and index 1 (a non-function type)
gets an empty wrapper. -/
theorem c10_type_dedup_witness :
    (compileTypeSec [CompTypeM.funcT ⟨[1], [2]⟩, CompTypeM.otherT,
        CompTypeM.funcT ⟨[1], [2]⟩]).2.getD 2 (.emptyWrapperDef 0)
      = .aliasDef 2 0 ∧
    (compileTypeSec [CompTypeM.funcT ⟨[1], [2]⟩, CompTypeM.otherT,
        CompTypeM.funcT ⟨[1], [2]⟩]).2.getD 0 (.emptyWrapperDef 0)
      = .wrapperDef 0 ∧
    (compileTypeSec [CompTypeM.funcT ⟨[1], [2]⟩, CompTypeM.otherT,
        CompTypeM.funcT ⟨[1], [2]⟩]).2.getD 1 (.emptyWrapperDef 0)
      = .emptyWrapperDef 1 := by
  have h := c10_type_dedup
    [CompTypeM.funcT ⟨[1], [2]⟩, CompTypeM.otherT, CompTypeM.funcT ⟨[1], [2]⟩]
    0 2 ⟨[1], [2]⟩ ⟨[1], [2]⟩ (by decide) (by decide) (by decide) (by decide)
    (by decide)
  obtain ⟨⟨k, hk, h1, h2, _, _⟩, hother, _⟩ := h
  have hk0 : k = 0 := Nat.le_zero.mp hk
  subst hk0
  exact ⟨h1, h2, hother 1 (by decide) (by decide)⟩

theorem ratTrunc_intCast (n : ℤ) : ratTrunc (n : ℚ) = n := by
  unfold ratTrunc
  rw [Rat.num_intCast, Rat.den_intCast]
  show Int.tdiv n 1 = n
  exact Int.tdiv_one n

theorem fcmpOGE_fin (a b : ℚ) : fcmpOGEv (.finV a) (.finV b) = !decide (a < b) := rfl

theorem fcmpOLE_fin (a b : ℚ) : fcmpOLEv (.finV a) (.finV b) = !decide (b < a) := rfl

theorem fcmpOLT_fin (a b : ℚ) : fcmpOLTv (.finV a) (.finV b) = decide (a < b) := rfl

theorem fcmpORD_fin (a b : ℚ) : fcmpORDv (.finV a) (.finV b) = true := rfl

theorem truncTrapCore_eq (bw prec : Nat) (minI maxI : ℤ)
    (hmin : roundIntRNE prec minI = minI)
    (hmax : if bw ≤ prec then roundIntRNE prec maxI = maxI
        else roundIntRNE prec maxI = maxI + 1)
    (v : FpVal) :
    truncTrapCore bw prec minI maxI v = truncSpecFn minI maxI v := by
  have htq : ∀ q : ℚ, fpTruncV (.finV q) = .finV ((ratTrunc q : ℤ) : ℚ) := fun _ => rfl
  by_cases hp : bw ≤ prec
  all_goals
    first
      | rw [if_pos hp] at hmax
      | rw [if_neg hp] at hmax
  all_goals cases v with
    | nanV => simp [truncTrapCore, truncSpecFn, fcmpORDv, fpIsNanV]
    | infV neg =>
      cases neg <;>
        simp [truncTrapCore, truncSpecFn, fcmpORDv, fcmpOGEv, fcmpOLEv, fcmpOLTv,
          fpIsNanV, fpLtV, fpTruncV, hp]
    | finV q =>
      by_cases h1 : ratTrunc q < minI
      · have hb : fcmpOGEv (FpVal.finV ((ratTrunc q : ℤ) : ℚ))
            (.finV ((roundIntRNE prec minI : ℤ) : ℚ)) = false := by
          rw [hmin, fcmpOGE_fin, decide_eq_true (by exact_mod_cast h1 :
            ((ratTrunc q : ℤ) : ℚ) < ((minI : ℤ) : ℚ))]
          rfl
        simp [truncTrapCore, truncSpecFn, fcmpORDv, fpIsNanV, htq, hb, h1]
      · have hb : fcmpOGEv (FpVal.finV ((ratTrunc q : ℤ) : ℚ))
            (.finV ((roundIntRNE prec minI : ℤ) : ℚ)) = true := by
          rw [hmin, fcmpOGE_fin, decide_eq_false (by exact_mod_cast h1 :
            ¬ ((ratTrunc q : ℤ) : ℚ) < ((minI : ℤ) : ℚ))]
          rfl
        by_cases h2 : maxI < ratTrunc q
        · first
            | (have hc : fcmpOLEv (FpVal.finV ((ratTrunc q : ℤ) : ℚ))
                  (.finV ((roundIntRNE prec maxI : ℤ) : ℚ)) = false := by
                rw [hmax, fcmpOLE_fin, decide_eq_true (by exact_mod_cast h2 :
                  ((maxI : ℤ) : ℚ) < ((ratTrunc q : ℤ) : ℚ))]
                rfl)
            | (have hc : fcmpOLTv (FpVal.finV ((ratTrunc q : ℤ) : ℚ))
                  (.finV ((roundIntRNE prec maxI : ℤ) : ℚ)) = false := by
                rw [hmax, fcmpOLT_fin]
                exact decide_eq_false (by exact_mod_cast (by omega :
                  ¬ ratTrunc q < maxI + 1)))
          simp [truncTrapCore, truncSpecFn, fcmpORDv, fpIsNanV, htq, hb, hc, hp, h1, h2]
        · first
            | (have hc : fcmpOLEv (FpVal.finV ((ratTrunc q : ℤ) : ℚ))
                  (.finV ((roundIntRNE prec maxI : ℤ) : ℚ)) = true := by
                rw [hmax, fcmpOLE_fin, decide_eq_false (by exact_mod_cast h2 :
                  ¬ ((maxI : ℤ) : ℚ) < ((ratTrunc q : ℤ) : ℚ))]
                rfl)
            | (have hc : fcmpOLTv (FpVal.finV ((ratTrunc q : ℤ) : ℚ))
                  (.finV ((roundIntRNE prec maxI : ℤ) : ℚ)) = true := by
                rw [hmax, fcmpOLT_fin]
                exact decide_eq_true (by exact_mod_cast (by omega :
                  ratTrunc q < maxI + 1)))
          simp [truncTrapCore, truncSpecFn, fcmpORDv, fpIsNanV, htq, hb, hc, hp, h1, h2,
            fpToIntV, ratTrunc_intCast]

theorem truncSatSignedCore_eq (bw prec : Nat) (minI maxI : ℤ)
    (hmin : roundIntRNE prec minI = minI)
    (hmax : if bw ≤ prec then roundIntRNE prec maxI = maxI
        else roundIntRNE prec maxI = maxI + 1)
    (v : FpVal) :
    truncSatSignedCore bw prec minI maxI v = truncSatSpecFn minI maxI v := by
  have htq : ∀ q : ℚ, fpTruncV (.finV q) = .finV ((ratTrunc q : ℤ) : ℚ) := fun _ => rfl
  by_cases hp : bw ≤ prec
  all_goals
    first
      | rw [if_pos hp] at hmax
      | rw [if_neg hp] at hmax
  all_goals cases v with
    | nanV => simp [truncSatSignedCore, truncSatSpecFn, fcmpORDv, fpIsNanV]
    | infV neg =>
      cases neg <;>
        simp [truncSatSignedCore, truncSatSpecFn, fcmpORDv, fcmpOGEv, fcmpOLEv, fcmpOLTv,
          fpIsNanV, fpLtV, fpTruncV, hp]
    | finV q =>
      by_cases h1 : ratTrunc q < minI
      · have hb : fcmpOGEv (FpVal.finV ((ratTrunc q : ℤ) : ℚ))
            (.finV ((roundIntRNE prec minI : ℤ) : ℚ)) = false := by
          rw [hmin, fcmpOGE_fin, decide_eq_true (by exact_mod_cast h1 :
            ((ratTrunc q : ℤ) : ℚ) < ((minI : ℤ) : ℚ))]
          rfl
        simp [truncSatSignedCore, truncSatSpecFn, fcmpORDv, fpIsNanV, htq, hb, h1]
      · have hb : fcmpOGEv (FpVal.finV ((ratTrunc q : ℤ) : ℚ))
            (.finV ((roundIntRNE prec minI : ℤ) : ℚ)) = true := by
          rw [hmin, fcmpOGE_fin, decide_eq_false (by exact_mod_cast h1 :
            ¬ ((ratTrunc q : ℤ) : ℚ) < ((minI : ℤ) : ℚ))]
          rfl
        by_cases h2 : maxI < ratTrunc q
        · first
            | (have hc : fcmpOLEv (FpVal.finV ((ratTrunc q : ℤ) : ℚ))
                  (.finV ((roundIntRNE prec maxI : ℤ) : ℚ)) = false := by
                rw [hmax, fcmpOLE_fin, decide_eq_true (by exact_mod_cast h2 :
                  ((maxI : ℤ) : ℚ) < ((ratTrunc q : ℤ) : ℚ))]
                rfl)
            | (have hc : fcmpOLTv (FpVal.finV ((ratTrunc q : ℤ) : ℚ))
                  (.finV ((roundIntRNE prec maxI : ℤ) : ℚ)) = false := by
                rw [hmax, fcmpOLT_fin]
                exact decide_eq_false (by exact_mod_cast (by omega :
                  ¬ ratTrunc q < maxI + 1)))
          simp [truncSatSignedCore, truncSatSpecFn, fcmpORDv, fpIsNanV, htq, hb, hc, hp, h1, h2]
        · first
            | (have hc : fcmpOLEv (FpVal.finV ((ratTrunc q : ℤ) : ℚ))
                  (.finV ((roundIntRNE prec maxI : ℤ) : ℚ)) = true := by
                rw [hmax, fcmpOLE_fin, decide_eq_false (by exact_mod_cast h2 :
                  ¬ ((maxI : ℤ) : ℚ) < ((ratTrunc q : ℤ) : ℚ))]
                rfl)
            | (have hc : fcmpOLTv (FpVal.finV ((ratTrunc q : ℤ) : ℚ))
                  (.finV ((roundIntRNE prec maxI : ℤ) : ℚ)) = true := by
                rw [hmax, fcmpOLT_fin]
                exact decide_eq_true (by exact_mod_cast (by omega :
                  ratTrunc q < maxI + 1)))
          simp [truncSatSignedCore, truncSatSpecFn, fcmpORDv, fpIsNanV, htq, hb, hc, hp, h1, h2,
            fpToIntV, ratTrunc_intCast]

theorem truncSatUnsignedCore_eq (bw prec : Nat) (maxI : ℤ)
    (hmin : roundIntRNE prec 0 = 0)
    (hmax : if bw ≤ prec then roundIntRNE prec maxI = maxI
        else roundIntRNE prec maxI = maxI + 1)
    (v : FpVal) :
    truncSatUnsignedCore bw prec 0 maxI v = truncSatSpecFn 0 maxI v := by
  have htq : ∀ q : ℚ, fpTruncV (.finV q) = .finV ((ratTrunc q : ℤ) : ℚ) := fun _ => rfl
  by_cases hp : bw ≤ prec
  all_goals
    first
      | rw [if_pos hp] at hmax
      | rw [if_neg hp] at hmax
  all_goals cases v with
    | nanV =>
      simp [truncSatUnsignedCore, truncSatSpecFn, fcmpOGEv, fcmpORDv, fpIsNanV, fpTruncV]
    | infV neg =>
      cases neg <;>
        simp [truncSatUnsignedCore, truncSatSpecFn, fcmpORDv, fcmpOGEv, fcmpOLEv, fcmpOLTv,
          fpIsNanV, fpLtV, fpTruncV, hp]
    | finV q =>
      by_cases h1 : ratTrunc q < 0
      · have hb : fcmpOGEv (FpVal.finV ((ratTrunc q : ℤ) : ℚ))
            (.finV ((roundIntRNE prec 0 : ℤ) : ℚ)) = false := by
          rw [hmin, fcmpOGE_fin, decide_eq_true (by exact_mod_cast h1 :
            ((ratTrunc q : ℤ) : ℚ) < ((0 : ℤ) : ℚ))]
          rfl
        simp [truncSatUnsignedCore, truncSatSpecFn, fcmpORDv, fpIsNanV, htq, hb, h1]
      · have hb : fcmpOGEv (FpVal.finV ((ratTrunc q : ℤ) : ℚ))
            (.finV ((roundIntRNE prec 0 : ℤ) : ℚ)) = true := by
          rw [hmin, fcmpOGE_fin, decide_eq_false (by exact_mod_cast h1 :
            ¬ ((ratTrunc q : ℤ) : ℚ) < ((0 : ℤ) : ℚ))]
          rfl
        by_cases h2 : maxI < ratTrunc q
        · first
            | (have hc : fcmpOLEv (FpVal.finV ((ratTrunc q : ℤ) : ℚ))
                  (.finV ((roundIntRNE prec maxI : ℤ) : ℚ)) = false := by
                rw [hmax, fcmpOLE_fin, decide_eq_true (by exact_mod_cast h2 :
                  ((maxI : ℤ) : ℚ) < ((ratTrunc q : ℤ) : ℚ))]
                rfl)
            | (have hc : fcmpOLTv (FpVal.finV ((ratTrunc q : ℤ) : ℚ))
                  (.finV ((roundIntRNE prec maxI : ℤ) : ℚ)) = false := by
                rw [hmax, fcmpOLT_fin]
                exact decide_eq_false (by exact_mod_cast (by omega :
                  ¬ ratTrunc q < maxI + 1)))
          simp [truncSatUnsignedCore, truncSatSpecFn, fcmpORDv, fpIsNanV, htq, hb, hc, hp, h1, h2]
        · first
            | (have hc : fcmpOLEv (FpVal.finV ((ratTrunc q : ℤ) : ℚ))
                  (.finV ((roundIntRNE prec maxI : ℤ) : ℚ)) = true := by
                rw [hmax, fcmpOLE_fin, decide_eq_false (by exact_mod_cast h2 :
                  ¬ ((maxI : ℤ) : ℚ) < ((ratTrunc q : ℤ) : ℚ))]
                rfl)
            | (have hc : fcmpOLTv (FpVal.finV ((ratTrunc q : ℤ) : ℚ))
                  (.finV ((roundIntRNE prec maxI : ℤ) : ℚ)) = true := by
                rw [hmax, fcmpOLT_fin]
                exact decide_eq_true (by exact_mod_cast (by omega :
                  ratTrunc q < maxI + 1)))
          simp [truncSatUnsignedCore, truncSatSpecFn, fcmpORDv, fpIsNanV, htq, hb, hc, hp, h1, h2,
            fpToIntV, ratTrunc_intCast]

/-- C4: for every trapping truncation (f32/f64 source, i32/i64 target,
signed or unsigned; the source mantissa widths are 24 and 53), the emitted
NaN-test / range-comparison / conversion sequence computes exactly the
reference semantics: NaN traps with invalid-conversion-to-integer, and a
truncated value outside the representable integer range (including the
infinities) traps with integer-overflow, otherwise the converted integer
is produced; the saturating variants compute 0 on NaN, the integer
minimum on underflow and the integer maximum on overflow; and the
overflow-side comparison is non-strict (`ole`) precisely when the integer
range's upper bound is exactly representable in the float type (which is
when the target bit width fits in the mantissa width). -/
theorem c4_trunc (bw prec : Nat)
    (h : (bw, prec) ∈ [(32, 24), (32, 53), (64, 24), (64, 53)]) (v : FpVal) :
    compileSignedTruncRun bw prec v = truncSpecFn (sMinC bw) (sMaxC bw) v ∧
    compileUnsignedTruncRun bw prec v = truncSpecFn 0 (uMaxC bw) v ∧
    compileSignedTruncSatRun bw prec v = truncSatSpecFn (sMinC bw) (sMaxC bw) v ∧
    compileUnsignedTruncSatRun bw prec v = truncSatSpecFn 0 (uMaxC bw) v ∧
    ((bw ≤ prec) ↔ roundIntRNE prec (sMaxC bw) = sMaxC bw) ∧
    ((bw ≤ prec) ↔ roundIntRNE prec (uMaxC bw) = uMaxC bw) := by
  have h4 : (bw = 32 ∧ prec = 24) ∨ (bw = 32 ∧ prec = 53)
      ∨ (bw = 64 ∧ prec = 24) ∨ (bw = 64 ∧ prec = 53) := by
    simpa [Prod.ext_iff] using h
  rcases h4 with ⟨hb, hq⟩ | ⟨hb, hq⟩ | ⟨hb, hq⟩ | ⟨hb, hq⟩ <;> subst hb <;> subst hq <;>
    exact ⟨truncTrapCore_eq _ _ _ _ (by decide) (by decide) v,
      truncTrapCore_eq _ _ _ _ (by decide) (by decide) v,
      truncSatSignedCore_eq _ _ _ _ (by decide) (by decide) v,
      truncSatUnsignedCore_eq _ _ _ (by decide) (by decide) v,
      by decide, by decide⟩

/-- C4 witness: the f32-to-i32 signed truncation of 3 converts to 3, and
the saturating form maps NaN to 0. -/
theorem c4_trunc_witness :
    compileSignedTruncRun 32 24 (.finV 3) = .valT 3 ∧
    compileSignedTruncSatRun 32 24 .nanV = 0 := by
  have h1 := (c4_trunc 32 24 (by decide) (.finV 3)).1
  have h2 := (c4_trunc 32 24 (by decide) .nanV).2.2.1
  rw [h1, h2]
  constructor
  · decide
  · rfl
